import Mathlib

/-!
# empty-glacier-vault

A shallow embedding of `main.go`: the job selection loop, the fetch and decode of
the inventory, and the deletion loop, with the Glacier client taken as a
state-passing collaborator.
-/

namespace EmptyGlacierVault

/-! ## Data model -/

/-- Go error values, kept by their message. -/
abbrev Error := String

/-- The SDK type `types.ActionCode`, a string type. -/
abbrev ActionCode := String

/-- Modelled from the spec: the constant `types.ActionCodeInventoryRetrieval` of the AWS
SDK, which the repository imports; the spec names the action `InventoryRetrieval`. -/
def ActionCodeInventoryRetrieval : ActionCode := "InventoryRetrieval"

/-- The fields of `types.GlacierJobDescription` that `main` reads. `JobId` and
`CompletionDate` are `*string` in the SDK: `none` is the nil pointer. -/
structure GlacierJobDescription where
  Action : ActionCode
  Completed : Bool
  JobId : Option String
  CompletionDate : Option String
deriving DecidableEq

/-- The ways a run of `main` ends before its last line: one constructor per `log.Fatal`
call of the source, and the runtime panic of dereferencing a nil pointer. -/
inductive Failure where
  /-- Line 29, `--vault must be set`. -/
  | vaultNotSet
  /-- Line 40, the configuration could not be loaded. -/
  | loadConfig (err : Error)
  /-- Line 51, `unable to call ListJobs`. -/
  | listJobs (err : Error)
  /-- Line 67, `There is a running job with JobId %s`. -/
  | jobInProgress (jobId : String)
  /-- Line 76, `Unable to find a completed job`. -/
  | noCompletedJob
  /-- Line 85, `error getting job output`. -/
  | getJobOutput (err : Error)
  /-- Line 91, `error reading output body`. -/
  | readBody (err : Error)
  /-- Line 108, `error unmarhaling json`. -/
  | unmarshal (err : Error)
  /-- A `*job.JobId` or `*job.CompletionDate` on a nil pointer (lines 67 and 69). -/
  | nilDereference
deriving DecidableEq

/-! ## Job selection (lines 59-77) -/

/-- The two variables of lines 59-60. -/
structure Latest where
  latestJob : Option String
  latestCompletionDate : Option String
deriving DecidableEq

/-- One iteration of the loop of lines 62-73. The comparison of line 69 is Go's
comparison of strings. -/
def selectStep (st : Latest) (job : GlacierJobDescription) : Except Failure Latest :=
  if job.Action != ActionCodeInventoryRetrieval then
    .ok st
  else if !job.Completed then
    match job.JobId with
    | none => .error .nilDereference
    | some id => .error (.jobInProgress id)
  else
    match st.latestCompletionDate with
    | none => .ok ⟨job.JobId, job.CompletionDate⟩
    | some latest =>
      match job.CompletionDate with
      | none => .error .nilDereference
      | some date =>
        if date > latest then .ok ⟨job.JobId, job.CompletionDate⟩ else .ok st

/-- The loop of lines 62-73 over the job list. -/
def selectLoop : Latest → List GlacierJobDescription → Except Failure Latest
  | st, [] => .ok st
  | st, job :: rest =>
    match selectStep st job with
    | .error f => .error f
    | .ok st1 => selectLoop st1 rest

/-- Lines 59-77: the loop from both variables nil, then the nil check of line 75. The
value returned is the job id later passed to `GetJobOutput`. -/
def selectJob (jobs : List GlacierJobDescription) : Except Failure String :=
  match selectLoop ⟨none, none⟩ jobs with
  | .error f => .error f
  | .ok st =>
    match st.latestJob with
    | none => .error .noCompletedJob
    | some id => .ok id

/-- A job of action `InventoryRetrieval`. -/
def isInventoryRetrieval (job : GlacierJobDescription) : Bool :=
  job.Action == ActionCodeInventoryRetrieval

/-- Every `InventoryRetrieval` job carries a job id and every completed one a completion
date. -/
def WellFormed (jobs : List GlacierJobDescription) : Prop :=
  ∀ j ∈ jobs, j.Action = ActionCodeInventoryRetrieval →
    (∃ id, j.JobId = some id) ∧ (j.Completed = true → ∃ d, j.CompletionDate = some d)

/-- A job literal for the examples: an `InventoryRetrieval` job with an id. -/
def inventoryJob (id : String) (completed : Bool) (date : Option String) :
    GlacierJobDescription :=
  ⟨ActionCodeInventoryRetrieval, completed, some id, date⟩

/-- A job literal for the examples: a job of another action. -/
def archiveJob (id : String) (completed : Bool) (date : Option String) :
    GlacierJobDescription :=
  ⟨"ArchiveRetrieval", completed, some id, date⟩

/-- The job list of the end-to-end scenario: two completed inventory jobs, `b` later. -/
def scenarioJobs : List GlacierJobDescription :=
  [inventoryJob "a" true (some "2023-01-01T00:00:00Z"),
   inventoryJob "b" true (some "2023-02-01T00:00:00Z")]

/-- An incomplete inventory job behind a completed one without a completion date. -/
def jobsRunningAfterMissingDate : List GlacierJobDescription :=
  [inventoryJob "a" true (some "2023-01-01T00:00:00Z"), inventoryJob "b" true none,
   inventoryJob "c" false none]

/-- A single incomplete inventory job without a job id. -/
def jobsRunningMissingId : List GlacierJobDescription :=
  [⟨ActionCodeInventoryRetrieval, false, none, none⟩]

/-- An incomplete inventory job among completed ones and jobs of another action. -/
def jobsRunning : List GlacierJobDescription :=
  [archiveJob "x" false none, inventoryJob "a" true (some "2023-01-01T00:00:00Z"),
   inventoryJob "c" false none, inventoryJob "b" true (some "2023-02-01T00:00:00Z")]

/-- Only jobs of another action, one of them incomplete. -/
def jobsOtherOnly : List GlacierJobDescription :=
  [archiveJob "x" false none, archiveJob "y" true (some "2023-01-01T00:00:00Z")]

/-- The scenario's jobs with jobs of another action put between them. -/
def scenarioJobsMixed : List GlacierJobDescription :=
  [archiveJob "x" false none, inventoryJob "a" true (some "2023-01-01T00:00:00Z"),
   archiveJob "y" true (some "2024-01-01T00:00:00Z"),
   inventoryJob "b" true (some "2023-02-01T00:00:00Z")]

/-- A `time.Time`, kept as the nanoseconds since the Unix epoch. -/
structure Time where
  unixNano : Int
deriving DecidableEq

/-- An element of `outputData.ArchiveList` (lines 97-103). `Size` is a Go `uint`. -/
structure Archive where
  ArchiveId : String
  ArchiveDescription : String
  CreationDate : Option Time
  Size : Nat
  SHA256TreeHash : String
deriving DecidableEq

/-- The struct `outputData` of lines 94-104. -/
structure OutputData where
  VaultARN : String
  InventoryDate : Option Time
  ArchiveList : List Archive
deriving DecidableEq

/-- A Go `[]byte`. -/
abbrev Bytes := List Nat

/-- What `main` uses of a `glacier.GetJobOutputOutput`: its `Body`, a reader, kept as what
`io.ReadAll` returns on it from a given state of the outside world. -/
structure GetJobOutputOutput (σ : Type) where
  Body : σ → Except Error Bytes × σ

/-- The three operations of `glacier.Client` that `main` calls, over a state `σ` of the
outside world: each takes the state before the call and gives the result with the state
after it. `DeleteArchive` gives the error, `none` for nil. -/
structure Client (σ : Type) where
  ListJobs : σ → String → Except Error (List GlacierJobDescription) × σ
  GetJobOutput : σ → String → String → Except Error (GetJobOutputOutput σ) × σ
  DeleteArchive : σ → String → String → Option Error × σ

/-- A request sent to the Glacier client, with the vault name it carries. -/
inductive Call where
  | ListJobs (vaultName : String)
  | GetJobOutput (vaultName : String) (jobId : String)
  | DeleteArchive (vaultName : String) (archiveId : String)
deriving DecidableEq

/-- The per-archive log lines of the deletion loop: line 120 and line 122. -/
inductive LogLine where
  | failed (archiveId : String) (err : Error)
  | deleted (archiveId : String)
deriving DecidableEq

/-- The archive id a log line names. -/
def LogLine.archiveId : LogLine → String
  | .failed id _ => id
  | .deleted id => id

/-- Whether a log line is the `failed to delete archive` line. -/
def LogLine.isFailed : LogLine → Bool
  | .failed _ _ => true
  | .deleted _ => false

/-- What a run of `main` leaves behind: how it ended (`none` when `main` returns, the
exit with status zero), the requests it sent in order, its per-archive log lines in order,
and the state of the outside world. -/
structure Run (σ : Type) where
  exit : Option Failure
  calls : List Call
  log : List LogLine
  state : σ

/-! ## The deletion loop (lines 113-125) and `main` -/

/-- The loop of lines 113-125: one `DeleteArchive` per element, the error logged and the
loop continued. It gives the requests sent, the lines logged and the final state. -/
def deleteLoop {σ : Type} (c : Client σ) (vaultFlg : String) :
    List Archive → σ → List Call × List LogLine × σ
  | [], s => ([], [], s)
  | archive :: rest, s =>
    match c.DeleteArchive s vaultFlg archive.ArchiveId with
    | (err, s1) =>
      let line : LogLine :=
        match err with
        | some e => .failed archive.ArchiveId e
        | none => .deleted archive.ArchiveId
      match deleteLoop c vaultFlg rest s1 with
      | (calls, log, s2) => (.DeleteArchive vaultFlg archive.ArchiveId :: calls, line :: log, s2)

/-- The function `main`, lines 16-127. `vaultFlg` is the value of `--vault`, `loadConfig`
the outcome of `config.LoadDefaultConfig`, `c` the client made from it, `unmarshal` the
effect of `json.Unmarshal` on `outputData`, and `s0` the state of the outside world at
the start. -/
def main {σ : Type} (vaultFlg : String) (loadConfig : Except Error Unit) (c : Client σ)
    (unmarshal : Bytes → Except Error OutputData) (s0 : σ) : Run σ :=
  if vaultFlg == "" then
    ⟨some .vaultNotSet, [], [], s0⟩
  else
    match loadConfig with
    | .error err => ⟨some (.loadConfig err), [], [], s0⟩
    | .ok _ =>
      match c.ListJobs s0 vaultFlg with
      | (.error err, s1) => ⟨some (.listJobs err), [.ListJobs vaultFlg], [], s1⟩
      | (.ok jobList, s1) =>
        match selectJob jobList with
        | .error f => ⟨some f, [.ListJobs vaultFlg], [], s1⟩
        | .ok latestJob =>
          match c.GetJobOutput s1 vaultFlg latestJob with
          | (.error err, s2) =>
            ⟨some (.getJobOutput err),
              [.ListJobs vaultFlg, .GetJobOutput vaultFlg latestJob], [], s2⟩
          | (.ok getJobOutput, s2) =>
            match getJobOutput.Body s2 with
            | (.error err, s3) =>
              ⟨some (.readBody err),
                [.ListJobs vaultFlg, .GetJobOutput vaultFlg latestJob], [], s3⟩
            | (.ok outputJson, s3) =>
              match unmarshal outputJson with
              | .error err =>
                ⟨some (.unmarshal err),
                  [.ListJobs vaultFlg, .GetJobOutput vaultFlg latestJob], [], s3⟩
              | .ok outputData =>
                match deleteLoop c vaultFlg outputData.ArchiveList s3 with
                | (calls, log, s4) =>
                  ⟨none, [.ListJobs vaultFlg, .GetJobOutput vaultFlg latestJob] ++ calls,
                    log, s4⟩

/-- Whether a request is a `DeleteArchive`. -/
def Call.isDeleteArchive : Call → Bool
  | .DeleteArchive _ _ => true
  | _ => false

/-- The run summary of the spec's orchestrator. -/
structure Summary where
  total : Nat
  succeeded : Nat
  failed : Nat
  failedIds : List String
deriving DecidableEq

/-- The spec's summary, read off the per-archive log lines of a run: `main` itself prints
the lines and no totals. -/
def summaryOfLog (log : List LogLine) : Summary where
  total := log.length
  succeeded := (log.filter (fun l => !l.isFailed)).length
  failed := (log.filter LogLine.isFailed).length
  failedIds := (log.filter LogLine.isFailed).map LogLine.archiveId

/-- An archive entry with only its id set. -/
def archiveWithId (id : String) : Archive := ⟨id, "", none, 0, ""⟩

/-- A client for the end-to-end scenario. The state counts the `DeleteArchive` requests
served: the first one fails, the later ones succeed. -/
def scenarioClient : Client Nat where
  ListJobs := fun s _ => (.ok scenarioJobs, s)
  GetJobOutput := fun s _ _ => (.ok ⟨fun s1 => (.ok [], s1)⟩, s)
  DeleteArchive := fun s _ _ => (if s = 0 then some "unavailable" else none, s + 1)

/-- A decoder for the end-to-end scenario: the body decodes to the archives `x1`, `x2`. -/
def scenarioUnmarshal : Bytes → Except Error OutputData :=
  fun _ => .ok ⟨"", none, [archiveWithId "x1", archiveWithId "x2"]⟩

/-- A decoder that rejects every body. -/
def failingUnmarshal : Bytes → Except Error OutputData :=
  fun _ => .error "unexpected end of JSON input"

/-- A client whose every `DeleteArchive` fails. -/
def refusingClient : Client Nat where
  ListJobs := fun s _ => (.ok scenarioJobs, s)
  GetJobOutput := fun s _ _ => (.ok ⟨fun s1 => (.ok [], s1)⟩, s)
  DeleteArchive := fun s _ _ => (some "denied", s + 1)

/-! ## Decoding the inventory (line 106)

`json.Unmarshal` belongs to Go's standard library, not to this repository. It is modelled
here on a parsed document, after the documented behaviour of `encoding/json` for a target
of the shape of `outputData`: an object key is matched to a struct field by its exact name
or else case-insensitively; a key that matches no field is skipped; a field no key matches
keeps its zero value; JSON `null` leaves a string or number as it is and sets a pointer to
nil; a JSON array is decoded element by element into the values the backing array of the
slice already holds, zero values past its end, and the slice is then cut to the length of
the array (so a later `ArchiveList` member of a document is merged into the records an
earlier one left); a value of the wrong type makes `Unmarshal` return an error. Only
whether decoding fails is modelled, not the wording of the error. The scanner, the case
folding of keys and the parsing of RFC 3339 times are parameters; a `uint` has 64 bits. -/

/-- A parsed JSON value; a number is kept as its literal. -/
inductive Json where
  | null
  | bool (b : Bool)
  | number (literal : String)
  | string (s : String)
  | array (elems : List Json)
  | object (members : List (String × Json))

/-- The parts of `encoding/json` and `time` taken as parameters: the parser of the bytes
(`none` for a syntax error), the case folding under which keys match field names, and the
parsing `time.Time.UnmarshalJSON` does of a JSON string. -/
structure JsonLibrary where
  parse : Bytes → Option Json
  foldName : String → String
  parseTime : String → Option Time

/-- The fields of an `ArchiveList` element, lines 98-102. -/
inductive ArchiveField where
  | ArchiveId
  | ArchiveDescription
  | CreationDate
  | Size
  | SHA256TreeHash
deriving DecidableEq

/-- The Go name of a field of an `ArchiveList` element. -/
def ArchiveField.name : ArchiveField → String
  | .ArchiveId => "ArchiveId"
  | .ArchiveDescription => "ArchiveDescription"
  | .CreationDate => "CreationDate"
  | .Size => "Size"
  | .SHA256TreeHash => "SHA256TreeHash"

/-- The fields of an `ArchiveList` element in declaration order. -/
def archiveFields : List ArchiveField :=
  [.ArchiveId, .ArchiveDescription, .CreationDate, .Size, .SHA256TreeHash]

/-- The fields of `outputData`, lines 95-97. -/
inductive OutputField where
  | VaultARN
  | InventoryDate
  | ArchiveList
deriving DecidableEq

/-- The Go name of a field of `outputData`. -/
def OutputField.name : OutputField → String
  | .VaultARN => "VaultARN"
  | .InventoryDate => "InventoryDate"
  | .ArchiveList => "ArchiveList"

/-- The fields of `outputData` in declaration order. -/
def outputFields : List OutputField := [.VaultARN, .InventoryDate, .ArchiveList]

/-- The struct field an object key decodes into: the field of that exact name, or else the
first field whose name equals the key under case folding; `none` for an unknown key. -/
def matchField {φ : Type} (name : φ → String) (fields : List φ)
    (foldName : String → String) (key : String) : Option φ :=
  match fields.find? (fun f => name f == key) with
  | some f => some f
  | none => fields.find? (fun f => foldName (name f) == foldName key)

/-- Decoding into a `string` field holding `cur`. -/
def decodeString (cur : String) : Json → Except Error String
  | .null => .ok cur
  | .string s => .ok s
  | _ => .error "json: cannot unmarshal into Go value of type string"

/-- The value of `strconv.ParseUint(literal, 10, 64)`: a non-empty run of decimal digits
below `2 ^ 64`. -/
def parseUint (literal : String) : Option Nat :=
  let digits := literal.toList
  if !digits.isEmpty && digits.all Char.isDigit then
    let n := digits.foldl (fun acc ch => 10 * acc + (ch.toNat - 48)) 0
    if n < 2 ^ 64 then some n else none
  else
    none

/-- Decoding into a `uint` field holding `cur`. -/
def decodeUint (cur : Nat) : Json → Except Error Nat
  | .null => .ok cur
  | .number literal =>
    match parseUint literal with
    | some n => .ok n
    | none => .error "json: cannot unmarshal number into Go value of type uint"
  | _ => .error "json: cannot unmarshal into Go value of type uint"

/-- Decoding into a `*time.Time` field. -/
def decodeTime (lib : JsonLibrary) : Json → Except Error (Option Time)
  | .null => .ok none
  | .string s =>
    match lib.parseTime s with
    | some t => .ok (some t)
    | none => .error "parsing time: not in RFC 3339 format"
  | _ => .error "Time.UnmarshalJSON: input is not a JSON string"

/-- The members of a JSON object decoded in order into a struct value, `set` decoding one
member into the value; the first error ends the decoding. -/
def decodeMembers {α : Type} (set : α → String → Json → Except Error α) :
    α → List (String × Json) → Except Error α
  | a, [] => .ok a
  | a, (key, value) :: rest =>
    match set a key value with
    | .error e => .error e
    | .ok a1 => decodeMembers set a1 rest

/-- The elements of a JSON array decoded in order into a slice. The element at index `i`
is decoded by `f` into the value the backing array holds at `i`; `slots` is the backing
array from the current index on, and past its end the value decoded into is `zero`. -/
def decodeElems {β : Type} (f : β → Json → Except Error β) (zero : β) :
    List β → List Json → Except Error (List β)
  | _, [] => .ok []
  | slots, j :: rest =>
    match f (slots.head?.getD zero) j with
    | .error e => .error e
    | .ok b =>
      match decodeElems f zero slots.tail rest with
      | .error e => .error e
      | .ok bs => .ok (b :: bs)

/-- The zero value of an `ArchiveList` element. -/
def zeroArchive : Archive := ⟨"", "", none, 0, ""⟩

/-- The zero value of `outputData`. -/
def zeroOutputData : OutputData := ⟨"", none, []⟩

/-- One member of a JSON object decoded into an `ArchiveList` element. -/
def setArchiveField (lib : JsonLibrary) (a : Archive) (key : String) (value : Json) :
    Except Error Archive :=
  match matchField ArchiveField.name archiveFields lib.foldName key with
  | none => .ok a
  | some .ArchiveId =>
    match decodeString a.ArchiveId value with
    | .error e => .error e
    | .ok s => .ok { a with ArchiveId := s }
  | some .ArchiveDescription =>
    match decodeString a.ArchiveDescription value with
    | .error e => .error e
    | .ok s => .ok { a with ArchiveDescription := s }
  | some .CreationDate =>
    match decodeTime lib value with
    | .error e => .error e
    | .ok t => .ok { a with CreationDate := t }
  | some .Size =>
    match decodeUint a.Size value with
    | .error e => .error e
    | .ok n => .ok { a with Size := n }
  | some .SHA256TreeHash =>
    match decodeString a.SHA256TreeHash value with
    | .error e => .error e
    | .ok s => .ok { a with SHA256TreeHash := s }

/-- A JSON value decoded into an element of `ArchiveList` holding `cur`. -/
def decodeArchive (lib : JsonLibrary) (cur : Archive) : Json → Except Error Archive
  | .null => .ok cur
  | .object members => decodeMembers (setArchiveField lib) cur members
  | _ => .error "json: cannot unmarshal into Go value of type struct"

/-- The struct `outputData` while `json.Unmarshal` fills it: its value, and the records
the backing array of `ArchiveList` holds past the length of the slice, left there by an
earlier, longer `ArchiveList` member of the document. -/
structure Decoding where
  outputData : OutputData
  spare : List Archive

/-- One member of the top-level JSON object decoded into `outputData`. An `ArchiveList`
array is decoded into the backing array of the slice, its elements followed by the spare
ones; an empty array and `null` give a slice without backing array. -/
def setOutputField (lib : JsonLibrary) (st : Decoding) (key : String) (value : Json) :
    Except Error Decoding :=
  match matchField OutputField.name outputFields lib.foldName key with
  | none => .ok st
  | some .VaultARN =>
    match decodeString st.outputData.VaultARN value with
    | .error e => .error e
    | .ok s => .ok ⟨{ st.outputData with VaultARN := s }, st.spare⟩
  | some .InventoryDate =>
    match decodeTime lib value with
    | .error e => .error e
    | .ok t => .ok ⟨{ st.outputData with InventoryDate := t }, st.spare⟩
  | some .ArchiveList =>
    match value with
    | .null => .ok ⟨{ st.outputData with ArchiveList := [] }, []⟩
    | .array elems =>
      match decodeElems (decodeArchive lib) zeroArchive
          (st.outputData.ArchiveList ++ st.spare) elems with
      | .error e => .error e
      | .ok archives =>
        .ok ⟨{ st.outputData with ArchiveList := archives },
          if elems.length = 0 then []
          else (st.outputData.ArchiveList ++ st.spare).drop elems.length⟩
    | _ => .error "json: cannot unmarshal into Go value of type []struct"

/-- A parsed document decoded into the zero `outputData`. -/
def decodeOutputData (lib : JsonLibrary) : Json → Except Error OutputData
  | .null => .ok zeroOutputData
  | .object members =>
    match decodeMembers (setOutputField lib) ⟨zeroOutputData, []⟩ members with
    | .error e => .error e
    | .ok st => .ok st.outputData
  | _ => .error "json: cannot unmarshal into Go value of type struct"

/-- The call `json.Unmarshal(outputJson, &outputData)` of line 106. -/
def Unmarshal (lib : JsonLibrary) (outputJson : Bytes) : Except Error OutputData :=
  match lib.parse outputJson with
  | none => .error "invalid character looking for beginning of value"
  | some doc => decodeOutputData lib doc

/-- Whether a key of an `ArchiveList` element decodes into the field `ArchiveId`. -/
def isArchiveIdKey (lib : JsonLibrary) (key : String) : Bool :=
  matchField ArchiveField.name archiveFields lib.foldName key == some .ArchiveId

/-- An `ArchiveList` element without its `ArchiveId` members. -/
def dropArchiveId (lib : JsonLibrary) : Json → Json
  | .object members => .object (members.filter (fun kv => !isArchiveIdKey lib kv.1))
  | j => j

/-- A member of the top-level object with, when it is an `ArchiveList` array, every
element changed by `f`. -/
def mapArchiveList (lib : JsonLibrary) (f : Json → Json) (kv : String × Json) :
    String × Json :=
  match matchField OutputField.name outputFields lib.foldName kv.1, kv.2 with
  | some .ArchiveList, .array elems => (kv.1, .array (elems.map f))
  | _, _ => kv

/-- A document with the `ArchiveId` members of every `ArchiveList` element left out. -/
def dropArchiveIds (lib : JsonLibrary) : Json → Json
  | .object members => .object (members.map (mapArchiveList lib (dropArchiveId lib)))
  | j => j

/-- An `ArchiveList` element without the members whose key matches no field. -/
def stripArchive (lib : JsonLibrary) : Json → Json
  | .object members =>
    .object (members.filter (fun kv =>
      (matchField ArchiveField.name archiveFields lib.foldName kv.1).isSome))
  | j => j

/-- A document without its unknown fields: the top-level members and the members of the
`ArchiveList` elements whose key matches no field of the struct. -/
def stripUnknown (lib : JsonLibrary) : Json → Json
  | .object members =>
    .object ((members.filter (fun kv =>
      (matchField OutputField.name outputFields lib.foldName kv.1).isSome)).map
        (mapArchiveList lib (stripArchive lib)))
  | j => j

/-- A record with its `ArchiveId` set to the empty string. -/
def blankArchiveId (a : Archive) : Archive := { a with ArchiveId := "" }

/-- The decoded document with the `ArchiveId` of every record set to the empty string. -/
def blankArchiveIds (o : OutputData) : OutputData :=
  { o with ArchiveList := o.ArchiveList.map blankArchiveId }

/-- A decoding state with the `ArchiveId` of every record, spare ones included, set to the
empty string. -/
def blankDecoding (st : Decoding) : Decoding :=
  ⟨blankArchiveIds st.outputData, st.spare.map blankArchiveId⟩

/-- A document with two `ArchiveList` members, the second shorter than the first and
without `ArchiveId`. -/
def docRepeatedArchiveList : Json :=
  .object [
    ("ArchiveList", .array [
      .object [("ArchiveId", .string "x1"), ("Size", .number "1")],
      .object [("ArchiveId", .string "x2"), ("Size", .number "2")]]),
    ("ArchiveList", .array [.object [("Size", .number "5")]])]

/-- An inventory document whose first `ArchiveList` element has no `ArchiveId`. -/
def docMissingArchiveId : Json :=
  .object [("VaultARN", .string "arn:aws:glacier:us-east-1:1:vaults/v1"),
    ("ArchiveList", .array [
      .object [("ArchiveDescription", .string "photos"), ("Size", .number "10")],
      .object [("ArchiveId", .string "x2"), ("Size", .number "20")]])]

/-- A well-formed inventory document of two archives. -/
def docWellFormed : Json :=
  .object [("VaultARN", .string "arn:aws:glacier:us-east-1:1:vaults/v1"),
    ("ArchiveList", .array [
      .object [("ArchiveId", .string "x1"), ("Size", .number "10")],
      .object [("ArchiveId", .string "x2"), ("Size", .number "20")]])]

/-- The document `docWellFormed` with unknown fields added at both levels. -/
def docExtraFields : Json :=
  .object [("VaultARN", .string "arn:aws:glacier:us-east-1:1:vaults/v1"),
    ("Owner", .object [("Name", .string "n")]),
    ("ArchiveList", .array [
      .object [("ArchiveId", .string "x1"), ("Tier", .number "1"), ("Size", .number "10")],
      .object [("Note", .null), ("ArchiveId", .string "x2"), ("Size", .number "20")]])]

/-- A library for the examples: keys fold to lower case, no time parses, and every body
parses to the given document. -/
def exampleLibrary (doc : Json) : JsonLibrary where
  parse := fun _ => some doc
  foldName := fun key => String.mk (key.toList.map Char.toLower)
  parseTime := fun _ => none

/-- A client for the decoding examples: it lists the scenario's jobs and serves every
request. -/
def servingClient : Client Nat where
  ListJobs := fun s _ => (.ok scenarioJobs, s)
  GetJobOutput := fun s _ _ => (.ok ⟨fun s1 => (.ok [], s1)⟩, s)
  DeleteArchive := fun s _ _ => (none, s + 1)

/-! ## Selection: basic facts -/

theorem selectStep_other (st : Latest) (job : GlacierJobDescription)
    (h : job.Action ≠ ActionCodeInventoryRetrieval) : selectStep st job = .ok st := by
  simp [selectStep, h]

theorem selectLoop_filter (jobs : List GlacierJobDescription) (st : Latest) :
    selectLoop st (jobs.filter isInventoryRetrieval) = selectLoop st jobs := by
  induction jobs generalizing st with
  | nil => rfl
  | cons j js ih =>
    by_cases h : j.Action = ActionCodeInventoryRetrieval
    · have hj : isInventoryRetrieval j = true := by simp [isInventoryRetrieval, h]
      rw [List.filter_cons_of_pos hj]
      simp only [selectLoop]
      cases selectStep st j with
      | error f => rfl
      | ok st1 => exact ih st1
    · have hj : ¬ isInventoryRetrieval j = true := by simp [isInventoryRetrieval, h]
      rw [List.filter_cons_of_neg hj]
      simp only [selectLoop, selectStep_other st j h]
      exact ih st

theorem selectJob_filter (jobs : List GlacierJobDescription) :
    selectJob (jobs.filter isInventoryRetrieval) = selectJob jobs := by
  simp only [selectJob, selectLoop_filter]

theorem selectStep_incomplete (st : Latest) (j : GlacierJobDescription) (id : String)
    (hA : j.Action = ActionCodeInventoryRetrieval) (hC : j.Completed = false)
    (hid : j.JobId = some id) : selectStep st j = .error (.jobInProgress id) := by
  simp [selectStep, hA, hC, hid]

theorem selectStep_first (x : Option String) (j : GlacierJobDescription)
    (hA : j.Action = ActionCodeInventoryRetrieval) (hC : j.Completed = true) :
    selectStep ⟨x, none⟩ j = .ok ⟨j.JobId, j.CompletionDate⟩ := by
  simp [selectStep, hA, hC]

theorem selectStep_later (x : Option String) (d0 : String) (j : GlacierJobDescription)
    (d : String) (hA : j.Action = ActionCodeInventoryRetrieval) (hC : j.Completed = true)
    (hd : j.CompletionDate = some d) :
    selectStep ⟨x, some d0⟩ j = .ok (if d > d0 then ⟨j.JobId, some d⟩ else ⟨x, some d0⟩) := by
  by_cases h : d > d0
  · simp [selectStep, hA, hC, hd, h]
  · simp [selectStep, hA, hC, hd, h]

theorem selectStep_completed (st : Latest) (j : GlacierJobDescription) (d : String)
    (hA : j.Action = ActionCodeInventoryRetrieval) (hC : j.Completed = true)
    (hd : j.CompletionDate = some d) : ∃ st1, selectStep st j = .ok st1 := by
  obtain ⟨x, l⟩ := st
  cases l with
  | none => exact ⟨_, selectStep_first x j hA hC⟩
  | some d0 => exact ⟨_, selectStep_later x d0 j d hA hC hd⟩

theorem wellFormed_tail {j : GlacierJobDescription} {js : List GlacierJobDescription}
    (h : WellFormed (j :: js)) : WellFormed js :=
  fun k hk => h k (List.mem_cons_of_mem _ hk)

/-- The loop from a state that already holds a job: it ends holding the first job
with the greatest date, or the job it started with when no date is greater. -/
theorem selectLoop_some (jobs : List GlacierJobDescription) :
    ∀ (id0 d0 : String), WellFormed jobs →
      (∀ j ∈ jobs, j.Action = ActionCodeInventoryRetrieval → j.Completed = true) →
      ∃ id d, selectLoop ⟨some id0, some d0⟩ jobs = .ok ⟨some id, some d⟩ ∧ d0 ≤ d ∧
        (∀ k ∈ jobs, k.Action = ActionCodeInventoryRetrieval →
          ∀ dk, k.CompletionDate = some dk → dk ≤ d) ∧
        ((id = id0 ∧ d = d0) ∨
          ∃ pre j post, jobs = pre ++ j :: post ∧ j.Action = ActionCodeInventoryRetrieval ∧
            j.JobId = some id ∧ j.CompletionDate = some d ∧ d0 < d ∧
            ∀ k ∈ pre, k.Action = ActionCodeInventoryRetrieval →
              ∀ dk, k.CompletionDate = some dk → dk < d) := by
  induction jobs with
  | nil =>
    intro id0 d0 _ _
    exact ⟨id0, d0, rfl, le_refl _, by simp, Or.inl ⟨rfl, rfl⟩⟩
  | cons j js ih =>
    intro id0 d0 hwf hall
    have hwf1 := wellFormed_tail hwf
    have hall1 : ∀ k ∈ js, k.Action = ActionCodeInventoryRetrieval → k.Completed = true :=
      fun k hk => hall k (List.mem_cons_of_mem _ hk)
    by_cases hA : j.Action = ActionCodeInventoryRetrieval
    · have hC := hall j (List.mem_cons_self _ _) hA
      obtain ⟨⟨idj, hid⟩, hdate⟩ := hwf j (List.mem_cons_self _ _) hA
      obtain ⟨dj, hdj⟩ := hdate hC
      by_cases hgt : dj > d0
      · obtain ⟨id, d, hrun, hle, hmax, hsel⟩ := ih idj dj hwf1 hall1
        refine ⟨id, d, ?_, le_of_lt (lt_of_lt_of_le hgt hle), ?_, Or.inr ?_⟩
        · simp only [selectLoop, selectStep_later (some id0) d0 j dj hA hC hdj, if_pos hgt, hid]
          exact hrun
        · intro k hk hkA dk hdk
          rcases List.mem_cons.mp hk with rfl | hk
          · rw [hdj] at hdk
            cases hdk
            exact hle
          · exact hmax k hk hkA dk hdk
        · rcases hsel with ⟨rfl, rfl⟩ | ⟨pre, j1, post, hjs, hj1A, hj1id, hj1d, hlt, hpre⟩
          · exact ⟨[], j, js, rfl, hA, hid, hdj, hgt, by simp⟩
          · refine ⟨j :: pre, j1, post, by simp [hjs], hj1A, hj1id, hj1d,
              lt_trans hgt hlt, ?_⟩
            intro k hk hkA dk hdk
            rcases List.mem_cons.mp hk with rfl | hk
            · rw [hdj] at hdk
              cases hdk
              exact hlt
            · exact hpre k hk hkA dk hdk
      · obtain ⟨id, d, hrun, hle, hmax, hsel⟩ := ih id0 d0 hwf1 hall1
        have hdj0 : dj ≤ d0 := not_lt.mp hgt
        refine ⟨id, d, ?_, hle, ?_, ?_⟩
        · simp only [selectLoop, selectStep_later (some id0) d0 j dj hA hC hdj, if_neg hgt]
          exact hrun
        · intro k hk hkA dk hdk
          rcases List.mem_cons.mp hk with rfl | hk
          · rw [hdj] at hdk
            cases hdk
            exact le_trans hdj0 hle
          · exact hmax k hk hkA dk hdk
        · rcases hsel with h | ⟨pre, j1, post, hjs, hj1A, hj1id, hj1d, hlt, hpre⟩
          · exact Or.inl h
          · refine Or.inr ⟨j :: pre, j1, post, by simp [hjs], hj1A, hj1id, hj1d, hlt, ?_⟩
            intro k hk hkA dk hdk
            rcases List.mem_cons.mp hk with rfl | hk
            · rw [hdj] at hdk
              cases hdk
              exact lt_of_le_of_lt hdj0 hlt
            · exact hpre k hk hkA dk hdk
    · obtain ⟨id, d, hrun, hle, hmax, hsel⟩ := ih id0 d0 hwf1 hall1
      refine ⟨id, d, ?_, hle, ?_, ?_⟩
      · simp only [selectLoop, selectStep_other _ j hA]
        exact hrun
      · intro k hk hkA dk hdk
        rcases List.mem_cons.mp hk with rfl | hk
        · exact absurd hkA hA
        · exact hmax k hk hkA dk hdk
      · rcases hsel with h | ⟨pre, j1, post, hjs, hj1A, hj1id, hj1d, hlt, hpre⟩
        · exact Or.inl h
        · refine Or.inr ⟨j :: pre, j1, post, by simp [hjs], hj1A, hj1id, hj1d, hlt, ?_⟩
          intro k hk hkA dk hdk
          rcases List.mem_cons.mp hk with rfl | hk
          · exact absurd hkA hA
          · exact hpre k hk hkA dk hdk

/-- The loop from both variables nil, over a list with an `InventoryRetrieval` job, all
of them completed: it ends holding the first job with the greatest date. -/
theorem selectLoop_init (jobs : List GlacierJobDescription) :
    WellFormed jobs →
      (∀ j ∈ jobs, j.Action = ActionCodeInventoryRetrieval → j.Completed = true) →
      (∃ j ∈ jobs, j.Action = ActionCodeInventoryRetrieval) →
      ∃ pre j post id d, jobs = pre ++ j :: post ∧
        j.Action = ActionCodeInventoryRetrieval ∧ j.Completed = true ∧
        j.JobId = some id ∧ j.CompletionDate = some d ∧
        selectLoop ⟨none, none⟩ jobs = .ok ⟨some id, some d⟩ ∧
        (∀ k ∈ jobs, k.Action = ActionCodeInventoryRetrieval →
          ∀ dk, k.CompletionDate = some dk → dk ≤ d) ∧
        (∀ k ∈ pre, k.Action = ActionCodeInventoryRetrieval →
          ∀ dk, k.CompletionDate = some dk → dk < d) := by
  induction jobs with
  | nil =>
    intro _ _ hex
    obtain ⟨j, hj, _⟩ := hex
    cases hj
  | cons j js ih =>
    intro hwf hall hex
    have hwf1 := wellFormed_tail hwf
    have hall1 : ∀ k ∈ js, k.Action = ActionCodeInventoryRetrieval → k.Completed = true :=
      fun k hk => hall k (List.mem_cons_of_mem _ hk)
    by_cases hA : j.Action = ActionCodeInventoryRetrieval
    · have hC := hall j (List.mem_cons_self _ _) hA
      obtain ⟨⟨idj, hid⟩, hdate⟩ := hwf j (List.mem_cons_self _ _) hA
      obtain ⟨dj, hdj⟩ := hdate hC
      obtain ⟨id, d, hrun, hle, hmax, hsel⟩ := selectLoop_some js idj dj hwf1 hall1
      have hrun1 : selectLoop ⟨none, none⟩ (j :: js) = .ok ⟨some id, some d⟩ := by
        simp only [selectLoop, selectStep_first none j hA hC, hid, hdj]
        exact hrun
      have hmax1 : ∀ k ∈ j :: js, k.Action = ActionCodeInventoryRetrieval →
          ∀ dk, k.CompletionDate = some dk → dk ≤ d := by
        intro k hk hkA dk hdk
        rcases List.mem_cons.mp hk with rfl | hk
        · rw [hdj] at hdk
          cases hdk
          exact hle
        · exact hmax k hk hkA dk hdk
      rcases hsel with ⟨rfl, rfl⟩ | ⟨pre, j1, post, hjs, hj1A, hj1id, hj1d, hlt, hpre⟩
      · exact ⟨[], j, js, id, d, rfl, hA, hC, hid, hdj, hrun1, hmax1, by simp⟩
      · refine ⟨j :: pre, j1, post, id, d, by simp [hjs], hj1A, ?_, hj1id, hj1d, hrun1,
          hmax1, ?_⟩
        · exact hall1 j1 (by simp [hjs]) hj1A
        · intro k hk hkA dk hdk
          rcases List.mem_cons.mp hk with rfl | hk
          · rw [hdj] at hdk
            cases hdk
            exact hlt
          · exact hpre k hk hkA dk hdk
    · have hex1 : ∃ k ∈ js, k.Action = ActionCodeInventoryRetrieval := by
        obtain ⟨k, hk, hkA⟩ := hex
        rcases List.mem_cons.mp hk with rfl | hk
        · exact absurd hkA hA
        · exact ⟨k, hk, hkA⟩
      obtain ⟨pre, j1, post, id, d, hjs, hj1A, hj1C, hj1id, hj1d, hrun, hmax, hpre⟩ :=
        ih hwf1 hall1 hex1
      refine ⟨j :: pre, j1, post, id, d, by simp [hjs], hj1A, hj1C, hj1id, hj1d, ?_, ?_, ?_⟩
      · simp only [selectLoop, selectStep_other _ j hA]
        exact hrun
      · intro k hk hkA dk hdk
        rcases List.mem_cons.mp hk with rfl | hk
        · exact absurd hkA hA
        · exact hmax k hk hkA dk hdk
      · intro k hk hkA dk hdk
        rcases List.mem_cons.mp hk with rfl | hk
        · exact absurd hkA hA
        · exact hpre k hk hkA dk hdk

/-- The loop stops at the first incomplete `InventoryRetrieval` job, from any state. -/
theorem selectLoop_incomplete (jobs : List GlacierJobDescription) :
    ∀ st : Latest, WellFormed jobs →
      (∃ j ∈ jobs, j.Action = ActionCodeInventoryRetrieval ∧ j.Completed = false) →
      ∃ pre j post id, jobs = pre ++ j :: post ∧
        j.Action = ActionCodeInventoryRetrieval ∧ j.Completed = false ∧ j.JobId = some id ∧
        (∀ k ∈ pre, k.Action = ActionCodeInventoryRetrieval → k.Completed = true) ∧
        selectLoop st jobs = .error (.jobInProgress id) := by
  induction jobs with
  | nil =>
    intro _ _ hex
    obtain ⟨j, hj, _⟩ := hex
    cases hj
  | cons j js ih =>
    intro st hwf hex
    have hwf1 := wellFormed_tail hwf
    by_cases hA : j.Action = ActionCodeInventoryRetrieval
    · obtain ⟨⟨idj, hid⟩, hdate⟩ := hwf j (List.mem_cons_self _ _) hA
      cases hC : j.Completed with
      | false =>
        refine ⟨[], j, js, idj, rfl, hA, hC, hid, by simp, ?_⟩
        simp only [selectLoop, selectStep_incomplete st j idj hA hC hid]
      | true =>
        obtain ⟨dj, hdj⟩ := hdate hC
        obtain ⟨st1, hst1⟩ := selectStep_completed st j dj hA hC hdj
        have hex1 : ∃ k ∈ js, k.Action = ActionCodeInventoryRetrieval ∧
            k.Completed = false := by
          obtain ⟨k, hk, hkA, hkC⟩ := hex
          rcases List.mem_cons.mp hk with rfl | hk
          · rw [hC] at hkC
            cases hkC
          · exact ⟨k, hk, hkA, hkC⟩
        obtain ⟨pre, j1, post, id, hjs, hj1A, hj1C, hj1id, hpre, hrun⟩ := ih st1 hwf1 hex1
        refine ⟨j :: pre, j1, post, id, by simp [hjs], hj1A, hj1C, hj1id, ?_, ?_⟩
        · intro k hk hkA
          rcases List.mem_cons.mp hk with rfl | hk
          · exact hC
          · exact hpre k hk hkA
        · simp only [selectLoop, hst1]
          exact hrun
    · have hex1 : ∃ k ∈ js, k.Action = ActionCodeInventoryRetrieval ∧
          k.Completed = false := by
        obtain ⟨k, hk, hkA, hkC⟩ := hex
        rcases List.mem_cons.mp hk with rfl | hk
        · exact absurd hkA hA
        · exact ⟨k, hk, hkA, hkC⟩
      obtain ⟨pre, j1, post, id, hjs, hj1A, hj1C, hj1id, hpre, hrun⟩ := ih st hwf1 hex1
      refine ⟨j :: pre, j1, post, id, by simp [hjs], hj1A, hj1C, hj1id, ?_, ?_⟩
      · intro k hk hkA
        rcases List.mem_cons.mp hk with rfl | hk
        · exact absurd hkA hA
        · exact hpre k hk hkA
      · simp only [selectLoop, selectStep_other _ j hA]
        exact hrun

/-- Over a list without `InventoryRetrieval` jobs the loop changes nothing. -/
theorem selectLoop_none (jobs : List GlacierJobDescription) (st : Latest)
    (h : ∀ j ∈ jobs, j.Action ≠ ActionCodeInventoryRetrieval) :
    selectLoop st jobs = .ok st := by
  induction jobs with
  | nil => rfl
  | cons j js ih =>
    simp only [selectLoop, selectStep_other st j (h j (List.mem_cons_self _ _))]
    exact ih (fun k hk => h k (List.mem_cons_of_mem _ hk))

/-- A `JobInProgress` exit comes from an incomplete `InventoryRetrieval` job of the list. -/
theorem selectLoop_jobInProgress (jobs : List GlacierJobDescription) :
    ∀ (st : Latest) (id : String), selectLoop st jobs = .error (.jobInProgress id) →
      ∃ j ∈ jobs, j.Action = ActionCodeInventoryRetrieval ∧ j.Completed = false ∧
        j.JobId = some id := by
  induction jobs with
  | nil =>
    intro st id h
    simp [selectLoop] at h
  | cons j js ih =>
    intro st id h
    simp only [selectLoop] at h
    cases hstep : selectStep st j with
    | ok st1 =>
      rw [hstep] at h
      obtain ⟨k, hk, hk1⟩ := ih st1 id h
      exact ⟨k, List.mem_cons_of_mem _ hk, hk1⟩
    | error f =>
      rw [hstep] at h
      have hf : f = .jobInProgress id := by
        simpa using h
      subst hf
      refine ⟨j, List.mem_cons_self _ _, ?_⟩
      by_cases hA : j.Action = ActionCodeInventoryRetrieval
      · cases hC : j.Completed with
        | false =>
          cases hid : j.JobId with
          | none => simp [selectStep, hA, hC, hid] at hstep
          | some i =>
            rw [selectStep_incomplete st j i hA hC hid] at hstep
            have : i = id := by simpa using hstep
            exact ⟨hA, rfl, by rw [this]⟩
        | true =>
          obtain ⟨x, l⟩ := st
          cases l with
          | none => simp [selectStep_first x j hA hC] at hstep
          | some d0 =>
            cases hd : j.CompletionDate with
            | none => simp [selectStep, hA, hC, hd] at hstep
            | some d => simp [selectStep_later x d0 j d hA hC hd] at hstep
      · simp [selectStep_other st j hA] at hstep

theorem selectJob_jobInProgress (jobs : List GlacierJobDescription) (id : String)
    (h : selectJob jobs = .error (.jobInProgress id)) :
    ∃ j ∈ jobs, j.Action = ActionCodeInventoryRetrieval ∧ j.Completed = false ∧
      j.JobId = some id := by
  apply selectLoop_jobInProgress jobs ⟨none, none⟩ id
  simp only [selectJob] at h
  cases hl : selectLoop ⟨none, none⟩ jobs with
  | error f =>
    rw [hl] at h
    simpa using h
  | ok st =>
    rw [hl] at h
    cases hj : st.latestJob with
    | none => simp [hj] at h
    | some i => simp [hj] at h

theorem scenario_date_gt : "2023-02-01T00:00:00Z" > "2023-01-01T00:00:00Z" := by
  show "2023-01-01T00:00:00Z" < "2023-02-01T00:00:00Z"
  rw [String.lt_iff_toList_lt]
  decide

@[simp]
theorem selectStep_inventoryJob_first (x : Option String) (id : String)
    (date : Option String) :
    selectStep ⟨x, none⟩ (inventoryJob id true date) = .ok ⟨some id, date⟩ :=
  selectStep_first x _ rfl rfl

@[simp]
theorem selectStep_inventoryJob_later (x : Option String) (d0 id d : String) :
    selectStep ⟨x, some d0⟩ (inventoryJob id true (some d)) =
      .ok (if d > d0 then ⟨some id, some d⟩ else ⟨x, some d0⟩) :=
  selectStep_later x d0 _ d rfl rfl rfl

@[simp]
theorem selectStep_inventoryJob_missingDate (x : Option String) (d0 id : String) :
    selectStep ⟨x, some d0⟩ (inventoryJob id true none) = .error .nilDereference := by
  simp [selectStep, inventoryJob]

@[simp]
theorem selectStep_inventoryJob_running (st : Latest) (id : String) (date : Option String) :
    selectStep st (inventoryJob id false date) = .error (.jobInProgress id) :=
  selectStep_incomplete st _ id rfl rfl rfl

@[simp]
theorem selectStep_archiveJob (st : Latest) (id : String) (completed : Bool)
    (date : Option String) : selectStep st (archiveJob id completed date) = .ok st :=
  selectStep_other st _ (by
    show "ArchiveRetrieval" ≠ "InventoryRetrieval"
    decide)

theorem selectJob_scenarioJobs : selectJob scenarioJobs = .ok "b" := by
  simp only [selectJob, selectLoop, scenarioJobs, selectStep_inventoryJob_first,
    selectStep_inventoryJob_later, if_pos scenario_date_gt]

theorem selectJob_of_loop (jobs : List GlacierJobDescription) (id : String)
    (d : Option String) (h : selectLoop ⟨none, none⟩ jobs = .ok ⟨some id, d⟩) :
    selectJob jobs = .ok id := by
  simp [selectJob, h]

theorem selectJob_of_loop_error (jobs : List GlacierJobDescription) (f : Failure)
    (h : selectLoop ⟨none, none⟩ jobs = .error f) : selectJob jobs = .error f := by
  simp [selectJob, h]

theorem selectJob_no_inventory (jobs : List GlacierJobDescription)
    (h : ∀ j ∈ jobs, j.Action ≠ ActionCodeInventoryRetrieval) :
    selectJob jobs = .error .noCompletedJob := by
  simp [selectJob, selectLoop_none jobs ⟨none, none⟩ h]

theorem wellFormed_jobsRunning : WellFormed jobsRunning := by
  intro j hj hA
  simp only [jobsRunning, List.mem_cons, List.mem_singleton, List.not_mem_nil, or_false] at hj
  rcases hj with rfl | rfl | rfl | rfl
  · exact ⟨⟨"x", rfl⟩, fun h => by cases h⟩
  · exact ⟨⟨"a", rfl⟩, fun _ => ⟨_, rfl⟩⟩
  · exact ⟨⟨"c", rfl⟩, fun h => by cases h⟩
  · exact ⟨⟨"b", rfl⟩, fun _ => ⟨_, rfl⟩⟩

/-! ## The claims on job selection -/

/-- C2, as amended. For every job list in which each InventoryRetrieval job carries a job
id and each completed one a completion date, and which contains an InventoryRetrieval job
with completed = false, selection fails with JobInProgress naming the first incomplete
InventoryRetrieval job of the list and selects no job, whatever completed
InventoryRetrieval jobs stand before or after it. -/
theorem C2_running_job_is_fatal (jobs : List GlacierJobDescription)
    (hwf : WellFormed jobs)
    (hrunning : ∃ j ∈ jobs, j.Action = ActionCodeInventoryRetrieval ∧ j.Completed = false) :
    ∃ pre j post id, jobs = pre ++ j :: post ∧
      j.Action = ActionCodeInventoryRetrieval ∧ j.Completed = false ∧ j.JobId = some id ∧
      (∀ k ∈ pre, k.Action = ActionCodeInventoryRetrieval → k.Completed = true) ∧
      selectJob jobs = .error (.jobInProgress id) ∧ ∀ sel, selectJob jobs ≠ .ok sel := by
  obtain ⟨pre, j, post, id, hjobs, hA, hC, hid, hpre, hrun⟩ :=
    selectLoop_incomplete jobs ⟨none, none⟩ hwf hrunning
  have hsel := selectJob_of_loop_error jobs _ hrun
  refine ⟨pre, j, post, id, hjobs, hA, hC, hid, hpre, hsel, ?_⟩
  intro sel h
  rw [hsel] at h
  cases h

/-- C2, witness: an incomplete job between two completed ones, behind a job of another
action. -/
theorem C2_running_job_is_fatal_witness :
    WellFormed jobsRunning ∧
    (∃ j ∈ jobsRunning, j.Action = ActionCodeInventoryRetrieval ∧ j.Completed = false) ∧
    ∃ pre j post id, jobsRunning = pre ++ j :: post ∧
      j.Action = ActionCodeInventoryRetrieval ∧ j.Completed = false ∧ j.JobId = some id ∧
      (∀ k ∈ pre, k.Action = ActionCodeInventoryRetrieval → k.Completed = true) ∧
      selectJob jobsRunning = .error (.jobInProgress id) ∧
      ∀ sel, selectJob jobsRunning ≠ .ok sel :=
  have hrunning : ∃ j ∈ jobsRunning, j.Action = ActionCodeInventoryRetrieval ∧
      j.Completed = false :=
    ⟨inventoryJob "c" false none, by simp [jobsRunning], rfl, rfl⟩
  ⟨wellFormed_jobsRunning, hrunning,
    C2_running_job_is_fatal jobsRunning wellFormed_jobsRunning hrunning⟩

/-- C2, counterexample. Two lists holding an incomplete InventoryRetrieval job on which
selection does not end with JobInProgress but with a nil dereference: one where a completed
job without a completion date stands before the incomplete job (line 69), one where the
incomplete job itself has no job id (line 67). -/
theorem C2_counterexample :
    ((∃ j ∈ jobsRunningAfterMissingDate,
        j.Action = ActionCodeInventoryRetrieval ∧ j.Completed = false) ∧
      selectJob jobsRunningAfterMissingDate = .error .nilDereference) ∧
    ((∃ j ∈ jobsRunningMissingId,
        j.Action = ActionCodeInventoryRetrieval ∧ j.Completed = false) ∧
      selectJob jobsRunningMissingId = .error .nilDereference) := by
  refine ⟨⟨⟨inventoryJob "c" false none, by simp [jobsRunningAfterMissingDate], rfl, rfl⟩,
    ?_⟩, ⟨⟨_, List.mem_singleton.mpr rfl, rfl, rfl⟩, ?_⟩⟩
  · simp [selectJob, selectLoop, jobsRunningAfterMissingDate]
  · simp [selectJob, selectLoop, selectStep, jobsRunningMissingId]

/-- C3. For every job list without a job of action InventoryRetrieval (the empty list
and lists of other-action jobs, completed or not), selection fails with NoCompletedJob,
the "Unable to find a completed job" exit. -/
theorem C3_no_inventory_job (jobs : List GlacierJobDescription)
    (h : ∀ j ∈ jobs, j.Action ≠ ActionCodeInventoryRetrieval) :
    selectJob jobs = .error .noCompletedJob :=
  selectJob_no_inventory jobs h

/-- C3, witness: the empty list, and a list of other-action jobs with an incomplete
one. -/
theorem C3_no_inventory_job_witness :
    selectJob [] = .error .noCompletedJob ∧
    (∀ j ∈ jobsOtherOnly, j.Action ≠ ActionCodeInventoryRetrieval) ∧
    selectJob jobsOtherOnly = .error .noCompletedJob :=
  have h : ∀ j ∈ jobsOtherOnly, j.Action ≠ ActionCodeInventoryRetrieval := by
    intro j hj
    simp only [jobsOtherOnly, List.mem_cons, List.mem_singleton, List.not_mem_nil,
      or_false] at hj
    rcases hj with rfl | rfl <;> decide
  ⟨C3_no_inventory_job [] (fun _ hj => by cases hj), h, C3_no_inventory_job jobsOtherOnly h⟩

/-- C9. The outcome of selection depends only on the subsequence of InventoryRetrieval
jobs: two job lists with the same InventoryRetrieval jobs in the same order, whatever jobs
of other actions stand among them, have the same outcome (the same selected id, the same
JobInProgress id, NoCompletedJob alike); and a JobInProgress outcome always names an
incomplete job of action InventoryRetrieval, never one of another action. -/
theorem C9_other_actions_ignored (jobs1 jobs2 : List GlacierJobDescription)
    (h : jobs1.filter isInventoryRetrieval = jobs2.filter isInventoryRetrieval) :
    selectJob jobs1 = selectJob jobs2 ∧
    selectJob jobs1 = selectJob (jobs1.filter isInventoryRetrieval) ∧
    ∀ id, selectJob jobs1 = .error (.jobInProgress id) →
      ∃ j ∈ jobs1, j.Action = ActionCodeInventoryRetrieval ∧ j.Completed = false ∧
        j.JobId = some id := by
  refine ⟨?_, (selectJob_filter jobs1).symm, selectJob_jobInProgress jobs1⟩
  rw [← selectJob_filter jobs1, ← selectJob_filter jobs2, h]

/-- C9, witness: the scenario's jobs with and without jobs of another action, one of them
incomplete, among them. -/
theorem C9_other_actions_ignored_witness :
    scenarioJobsMixed.filter isInventoryRetrieval =
      scenarioJobs.filter isInventoryRetrieval ∧
    selectJob scenarioJobsMixed = selectJob scenarioJobs ∧
    selectJob scenarioJobsMixed = selectJob (scenarioJobsMixed.filter isInventoryRetrieval) ∧
    ∀ id, selectJob scenarioJobsMixed = .error (.jobInProgress id) →
      ∃ j ∈ scenarioJobsMixed, j.Action = ActionCodeInventoryRetrieval ∧
        j.Completed = false ∧ j.JobId = some id :=
  have h : scenarioJobsMixed.filter isInventoryRetrieval =
      scenarioJobs.filter isInventoryRetrieval := by decide
  ⟨h, C9_other_actions_ignored scenarioJobsMixed scenarioJobs h⟩

/-- C10. For every job list in which each InventoryRetrieval job carries a job id and each
completed one a completion date, the selection loop never dereferences nil and ends in one
of three outcomes: JobInProgress naming the first incomplete InventoryRetrieval job in
input order, NoCompletedJob, or a selected job that is a completed InventoryRetrieval
member of the list. It selects a job exactly when the list has an InventoryRetrieval job
and all of them are completed, and ends with NoCompletedJob exactly when the list has no
InventoryRetrieval job. -/
theorem C10_selection_outcomes (jobs : List GlacierJobDescription) (hwf : WellFormed jobs) :
    selectJob jobs ≠ .error .nilDereference ∧
    ((∃ pre j post id, jobs = pre ++ j :: post ∧
        j.Action = ActionCodeInventoryRetrieval ∧ j.Completed = false ∧ j.JobId = some id ∧
        (∀ k ∈ pre, k.Action = ActionCodeInventoryRetrieval → k.Completed = true) ∧
        selectJob jobs = .error (.jobInProgress id)) ∨
      selectJob jobs = .error .noCompletedJob ∨
      (∃ j ∈ jobs, ∃ id, j.Action = ActionCodeInventoryRetrieval ∧ j.Completed = true ∧
        j.JobId = some id ∧ selectJob jobs = .ok id)) ∧
    ((∃ id, selectJob jobs = .ok id) ↔
      ((∃ j ∈ jobs, j.Action = ActionCodeInventoryRetrieval) ∧
        ∀ j ∈ jobs, j.Action = ActionCodeInventoryRetrieval → j.Completed = true)) ∧
    (selectJob jobs = .error .noCompletedJob ↔
      ∀ j ∈ jobs, j.Action ≠ ActionCodeInventoryRetrieval) := by
  by_cases hrunning : ∃ j ∈ jobs, j.Action = ActionCodeInventoryRetrieval ∧
      j.Completed = false
  · obtain ⟨pre, j, post, id, hjobs, hA, hC, hid, hpre, hrun⟩ :=
      selectLoop_incomplete jobs ⟨none, none⟩ hwf hrunning
    have hsel := selectJob_of_loop_error jobs _ hrun
    have hmem : j ∈ jobs := by simp [hjobs]
    refine ⟨by simp [hsel], Or.inl ⟨pre, j, post, id, hjobs, hA, hC, hid, hpre, hsel⟩,
      ⟨?_, ?_⟩, ⟨?_, ?_⟩⟩
    · rintro ⟨sel, h⟩
      rw [hsel] at h
      cases h
    · rintro ⟨_, hall⟩
      have := hall j hmem hA
      rw [hC] at this
      cases this
    · intro h
      rw [hsel] at h
      cases h
    · intro h
      exact absurd hA (h j hmem)
  · have hall : ∀ j ∈ jobs, j.Action = ActionCodeInventoryRetrieval → j.Completed = true := by
      intro j hj hA
      cases hC : j.Completed with
      | true => rfl
      | false => exact absurd ⟨j, hj, hA, hC⟩ hrunning
    by_cases hex : ∃ j ∈ jobs, j.Action = ActionCodeInventoryRetrieval
    · obtain ⟨pre, j, post, id, d, hjobs, hA, hC, hid, hd, hrun, _, _⟩ :=
        selectLoop_init jobs hwf hall hex
      have hsel := selectJob_of_loop jobs id _ hrun
      have hmem : j ∈ jobs := by simp [hjobs]
      refine ⟨by simp [hsel], Or.inr (Or.inr ⟨j, hmem, id, hA, hC, hid, hsel⟩),
        ⟨fun _ => ⟨hex, hall⟩, fun _ => ⟨id, hsel⟩⟩, ⟨?_, ?_⟩⟩
      · intro h
        rw [hsel] at h
        cases h
      · intro h
        exact absurd hA (h j hmem)
    · have hnone : ∀ j ∈ jobs, j.Action ≠ ActionCodeInventoryRetrieval :=
        fun j hj hA => hex ⟨j, hj, hA⟩
      have hsel := selectJob_no_inventory jobs hnone
      refine ⟨by simp [hsel], Or.inr (Or.inl hsel), ⟨?_, ?_⟩, ⟨fun _ => hnone, fun _ => hsel⟩⟩
      · rintro ⟨sel, h⟩
        rw [hsel] at h
        cases h
      · rintro ⟨h, _⟩
        exact absurd h hex

/-- C10, witness: the list with a running job between two completed ones. -/
theorem C10_selection_outcomes_witness :
    WellFormed jobsRunning ∧ selectJob jobsRunning = .error (.jobInProgress "c") ∧
    selectJob jobsRunning ≠ .error .nilDereference ∧
    ((∃ id, selectJob jobsRunning = .ok id) ↔
      ((∃ j ∈ jobsRunning, j.Action = ActionCodeInventoryRetrieval) ∧
        ∀ j ∈ jobsRunning, j.Action = ActionCodeInventoryRetrieval → j.Completed = true)) :=
  ⟨wellFormed_jobsRunning, by simp [selectJob, selectLoop, jobsRunning],
    (C10_selection_outcomes jobsRunning wellFormed_jobsRunning).1,
    (C10_selection_outcomes jobsRunning wellFormed_jobsRunning).2.2.1⟩

/-! ## The deletion loop -/

theorem deleteLoop_calls {σ : Type} (c : Client σ) (vaultFlg : String)
    (archives : List Archive) (s : σ) :
    (deleteLoop c vaultFlg archives s).1 =
      archives.map (fun a => Call.DeleteArchive vaultFlg a.ArchiveId) := by
  induction archives generalizing s with
  | nil => rfl
  | cons a rest ih =>
    simp only [deleteLoop, List.map_cons]
    rw [← ih (c.DeleteArchive s vaultFlg a.ArchiveId).2]

theorem deleteLoop_log_ids {σ : Type} (c : Client σ) (vaultFlg : String)
    (archives : List Archive) (s : σ) :
    (deleteLoop c vaultFlg archives s).2.1.map LogLine.archiveId =
      archives.map (fun a => a.ArchiveId) := by
  induction archives generalizing s with
  | nil => rfl
  | cons a rest ih =>
    simp only [deleteLoop, List.map_cons]
    rw [← ih (c.DeleteArchive s vaultFlg a.ArchiveId).2]
    cases (c.DeleteArchive s vaultFlg a.ArchiveId).1 <;> rfl

theorem deleteLoop_log_length {σ : Type} (c : Client σ) (vaultFlg : String)
    (archives : List Archive) (s : σ) :
    (deleteLoop c vaultFlg archives s).2.1.length = archives.length := by
  have h := congrArg List.length (deleteLoop_log_ids c vaultFlg archives s)
  simpa using h

theorem deleteLoop_all_failed {σ : Type} (c : Client σ) (vaultFlg : String)
    (hfail : ∀ s v a, (c.DeleteArchive s v a).1 ≠ none) (archives : List Archive) (s : σ) :
    ∀ l ∈ (deleteLoop c vaultFlg archives s).2.1, l.isFailed = true := by
  induction archives generalizing s with
  | nil =>
    intro l hl
    cases hl
  | cons a rest ih =>
    intro l hl
    simp only [deleteLoop, List.mem_cons] at hl
    rcases hl with rfl | hl
    · cases h : (c.DeleteArchive s vaultFlg a.ArchiveId).1 with
      | none => exact absurd h (hfail s vaultFlg a.ArchiveId)
      | some e => rfl
    · exact ih _ l hl

theorem length_filter_not_add {α : Type} (p : α → Bool) (l : List α) :
    (l.filter (fun x => !p x)).length + (l.filter p).length = l.length := by
  induction l with
  | nil => rfl
  | cons x rest ih =>
    cases h : p x
    · rw [List.filter_cons_of_pos (by simp [h]), List.filter_cons_of_neg (by simp [h])]
      simp only [List.length_cons]
      omega
    · rw [List.filter_cons_of_neg (by simp [h]), List.filter_cons_of_pos (by simp [h])]
      simp only [List.length_cons]
      omega

theorem summaryOfLog_counts (log : List LogLine) :
    (summaryOfLog log).succeeded + (summaryOfLog log).failed = log.length :=
  length_filter_not_add LogLine.isFailed log

theorem summaryOfLog_all_failed (log : List LogLine) (h : ∀ l ∈ log, l.isFailed = true) :
    (summaryOfLog log).failed = log.length ∧ (summaryOfLog log).succeeded = 0 := by
  have hf : log.filter LogLine.isFailed = log := List.filter_eq_self.mpr h
  have hc := summaryOfLog_counts log
  have h1 : (summaryOfLog log).failed = log.length := by
    simp only [summaryOfLog, hf]
  omega

/-- When every step before the deletion loop succeeds, `main` runs the loop and
returns. -/
theorem main_reaches_deleteLoop {σ : Type} (vaultFlg : String)
    (loadConfig : Except Error Unit) (c : Client σ)
    (unmarshal : Bytes → Except Error OutputData) (s0 s1 s2 s3 : σ)
    (jobList : List GlacierJobDescription) (latestJob : String)
    (out : GetJobOutputOutput σ) (outputJson : Bytes) (outputData : OutputData)
    (hvault : vaultFlg ≠ "") (hcfg : loadConfig = .ok ())
    (hlist : c.ListJobs s0 vaultFlg = (.ok jobList, s1))
    (hsel : selectJob jobList = .ok latestJob)
    (hout : c.GetJobOutput s1 vaultFlg latestJob = (.ok out, s2))
    (hbody : out.Body s2 = (.ok outputJson, s3))
    (hdec : unmarshal outputJson = .ok outputData) :
    main vaultFlg loadConfig c unmarshal s0 =
      ⟨none, [.ListJobs vaultFlg, .GetJobOutput vaultFlg latestJob] ++
          (deleteLoop c vaultFlg outputData.ArchiveList s3).1,
        (deleteLoop c vaultFlg outputData.ArchiveList s3).2.1,
        (deleteLoop c vaultFlg outputData.ArchiveList s3).2.2⟩ := by
  subst hcfg
  simp [main, hvault, hlist, hsel, hout, hbody, hdec]

theorem main_fatal_no_delete {σ : Type} (vaultFlg : String)
    (loadConfig : Except Error Unit) (c : Client σ)
    (unmarshal : Bytes → Except Error OutputData) (s0 : σ) (f : Failure)
    (h : (main vaultFlg loadConfig c unmarshal s0).exit = some f) :
    (∀ call ∈ (main vaultFlg loadConfig c unmarshal s0).calls,
        call.isDeleteArchive = false) ∧
      (main vaultFlg loadConfig c unmarshal s0).log = [] := by
  unfold main at h ⊢
  split
  · simp
  · split
    · simp
    · split
      · simp [Call.isDeleteArchive]
      · split
        · simp [Call.isDeleteArchive]
        · split
          · simp [Call.isDeleteArchive]
          · split
            · simp [Call.isDeleteArchive]
            · split
              · simp [Call.isDeleteArchive]
              · simp_all

/-! ## The claims on the deletion loop and the run -/

/-- C4. For every decoded archive list of N entries and every behaviour of the
DeleteArchive collaborator (any client, from any state), the deletion loop sends exactly N
DeleteArchive requests, the i-th carrying the run's vault name and the ArchiveId of the
i-th entry, none filtered, deduplicated or reordered, and logs exactly N per-archive lines
naming the same ids in the same order; and a run of `main` that decodes an inventory sends,
after its ListJobs and GetJobOutput, exactly those requests for the decoded ArchiveList. -/
theorem C4_one_request_per_archive {σ : Type} (c : Client σ) (vaultFlg : String)
    (archives : List Archive) (s : σ) :
    (deleteLoop c vaultFlg archives s).1 =
        archives.map (fun a => Call.DeleteArchive vaultFlg a.ArchiveId) ∧
      (deleteLoop c vaultFlg archives s).1.length = archives.length ∧
      (deleteLoop c vaultFlg archives s).2.1.length = archives.length ∧
      (deleteLoop c vaultFlg archives s).2.1.map LogLine.archiveId =
        archives.map (fun a => a.ArchiveId) ∧
      ∀ (loadConfig : Except Error Unit) (unmarshal : Bytes → Except Error OutputData)
        (s0 s1 s2 : σ) (jobList : List GlacierJobDescription) (latestJob : String)
        (out : GetJobOutputOutput σ) (outputJson : Bytes) (outputData : OutputData),
        vaultFlg ≠ "" → loadConfig = .ok () →
        c.ListJobs s0 vaultFlg = (.ok jobList, s1) → selectJob jobList = .ok latestJob →
        c.GetJobOutput s1 vaultFlg latestJob = (.ok out, s2) →
        out.Body s2 = (.ok outputJson, s) → unmarshal outputJson = .ok outputData →
        outputData.ArchiveList = archives →
        (main vaultFlg loadConfig c unmarshal s0).calls =
          [.ListJobs vaultFlg, .GetJobOutput vaultFlg latestJob] ++
            archives.map (fun a => Call.DeleteArchive vaultFlg a.ArchiveId) := by
  refine ⟨deleteLoop_calls c vaultFlg archives s, ?_, deleteLoop_log_length c vaultFlg archives s,
    deleteLoop_log_ids c vaultFlg archives s, ?_⟩
  · rw [deleteLoop_calls, List.length_map]
  · intro loadConfig unmarshal s0 s1 s2 jobList latestJob out outputJson outputData hvault
      hcfg hlist hsel hout hbody hdec harch
    rw [main_reaches_deleteLoop vaultFlg loadConfig c unmarshal s0 s1 s2 s jobList latestJob
      out outputJson outputData hvault hcfg hlist hsel hout hbody hdec, harch, deleteLoop_calls]

/-- C5. For every archive list of length N and every DeleteArchive behaviour: if the line
logged for the k-th record is a failure, the requests for the records after it are still
sent; the per-archive lines counted as succeeded plus those counted as failed number N;
when every deletion fails, N requests are still sent and all N lines are failures; and
a run of `main` that reaches the loop returns normally, whatever the deletions did. -/
theorem C5_partial_failure {σ : Type} (c : Client σ) (vaultFlg : String)
    (archives : List Archive) (s : σ) :
    (∀ k id e, (deleteLoop c vaultFlg archives s).2.1[k]? = some (LogLine.failed id e) →
        (deleteLoop c vaultFlg archives s).1.drop (k + 1) =
          (archives.drop (k + 1)).map (fun a => Call.DeleteArchive vaultFlg a.ArchiveId)) ∧
      (summaryOfLog (deleteLoop c vaultFlg archives s).2.1).succeeded +
          (summaryOfLog (deleteLoop c vaultFlg archives s).2.1).failed = archives.length ∧
      ((∀ s1 v a, (c.DeleteArchive s1 v a).1 ≠ none) →
        (deleteLoop c vaultFlg archives s).1.length = archives.length ∧
          (summaryOfLog (deleteLoop c vaultFlg archives s).2.1).failed = archives.length ∧
          (summaryOfLog (deleteLoop c vaultFlg archives s).2.1).succeeded = 0) ∧
      ∀ (loadConfig : Except Error Unit) (unmarshal : Bytes → Except Error OutputData)
        (s0 s1 s2 : σ) (jobList : List GlacierJobDescription) (latestJob : String)
        (out : GetJobOutputOutput σ) (outputJson : Bytes) (outputData : OutputData),
        vaultFlg ≠ "" → loadConfig = .ok () →
        c.ListJobs s0 vaultFlg = (.ok jobList, s1) → selectJob jobList = .ok latestJob →
        c.GetJobOutput s1 vaultFlg latestJob = (.ok out, s2) →
        out.Body s2 = (.ok outputJson, s) → unmarshal outputJson = .ok outputData →
        outputData.ArchiveList = archives →
        (main vaultFlg loadConfig c unmarshal s0).exit = none ∧
          (main vaultFlg loadConfig c unmarshal s0).log =
            (deleteLoop c vaultFlg archives s).2.1 := by
  refine ⟨?_, ?_, ?_, ?_⟩
  · intro k id e _
    rw [deleteLoop_calls, List.map_drop]
  · rw [summaryOfLog_counts, deleteLoop_log_length]
  · intro hfail
    have h := summaryOfLog_all_failed _ (deleteLoop_all_failed c vaultFlg hfail archives s)
    rw [deleteLoop_log_length] at h
    refine ⟨?_, h.1, h.2⟩
    rw [deleteLoop_calls, List.length_map]
  · intro loadConfig unmarshal s0 s1 s2 jobList latestJob out outputJson outputData hvault
      hcfg hlist hsel hout hbody hdec harch
    rw [main_reaches_deleteLoop vaultFlg loadConfig c unmarshal s0 s1 s2 s jobList latestJob
      out outputJson outputData hvault hcfg hlist hsel hout hbody hdec, harch]
    exact ⟨rfl, rfl⟩

/-- C6. For every run of `main` that ends in a fatal error (the ListJobs failure,
JobInProgress, NoCompletedJob, the GetJobOutput failure, the body read failure, the
decode failure, and the configuration errors and nil dereference besides), no DeleteArchive
request is among the requests the run sent, and no per-archive line was logged. -/
theorem C6_no_deletion_on_fatal {σ : Type} (vaultFlg : String)
    (loadConfig : Except Error Unit) (c : Client σ)
    (unmarshal : Bytes → Except Error OutputData) (s0 : σ) (f : Failure)
    (h : (main vaultFlg loadConfig c unmarshal s0).exit = some f) :
    (∀ call ∈ (main vaultFlg loadConfig c unmarshal s0).calls,
        call.isDeleteArchive = false) ∧
      (main vaultFlg loadConfig c unmarshal s0).log = [] :=
  main_fatal_no_delete vaultFlg loadConfig c unmarshal s0 f h

/-- C6, witness: a run whose inventory does not decode. -/
theorem C6_no_deletion_on_fatal_witness :
    (main "v1" (.ok ()) scenarioClient failingUnmarshal 0).exit =
        some (.unmarshal "unexpected end of JSON input") ∧
      (∀ call ∈ (main "v1" (.ok ()) scenarioClient failingUnmarshal 0).calls,
        call.isDeleteArchive = false) ∧
      (main "v1" (.ok ()) scenarioClient failingUnmarshal 0).log = [] :=
  have h : (main "v1" (.ok ()) scenarioClient failingUnmarshal 0).exit =
      some (.unmarshal "unexpected end of JSON input") := by
    simp [main, scenarioClient, selectJob_scenarioJobs, failingUnmarshal]
  ⟨h, C6_no_deletion_on_fatal "v1" (.ok ()) scenarioClient failingUnmarshal 0 _ h⟩

/-- C7. End to end, for vault "v1" and the job list [a, b] of two completed
InventoryRetrieval jobs dated 2023-01-01T00:00:00Z and 2023-02-01T00:00:00Z: the run
requests the output of job "b"; when that output decodes to an ArchiveList with the ids
"x1", "x2", the run sends DeleteArchive("v1","x1") and then DeleteArchive("v1","x2"); and
when the first deletion fails and the second succeeds, the run returns normally with the
lines "failed x1" and "deleted x2", that is total 2, succeeded 1, failed 1, and "x1" the
only failed archive id. -/
theorem C7_end_to_end {σ : Type} (c : Client σ)
    (unmarshal : Bytes → Except Error OutputData) (s0 s1 : σ)
    (hlist : c.ListJobs s0 "v1" = (.ok scenarioJobs, s1)) :
    (main "v1" (.ok ()) c unmarshal s0).calls.take 2 =
        [.ListJobs "v1", .GetJobOutput "v1" "b"] ∧
      ∀ (out : GetJobOutputOutput σ) (s2 s3 : σ) (outputJson : Bytes)
        (outputData : OutputData),
        c.GetJobOutput s1 "v1" "b" = (.ok out, s2) → out.Body s2 = (.ok outputJson, s3) →
        unmarshal outputJson = .ok outputData →
        outputData.ArchiveList.map (fun a => a.ArchiveId) = ["x1", "x2"] →
        (main "v1" (.ok ()) c unmarshal s0).calls =
            [.ListJobs "v1", .GetJobOutput "v1" "b", .DeleteArchive "v1" "x1",
              .DeleteArchive "v1" "x2"] ∧
          ∀ (e : Error) (s4 s5 : σ),
            c.DeleteArchive s3 "v1" "x1" = (some e, s4) →
            c.DeleteArchive s4 "v1" "x2" = (none, s5) →
            (main "v1" (.ok ()) c unmarshal s0).exit = none ∧
              (main "v1" (.ok ()) c unmarshal s0).log =
                [.failed "x1" e, .deleted "x2"] ∧
              summaryOfLog (main "v1" (.ok ()) c unmarshal s0).log = ⟨2, 1, 1, ["x1"]⟩ := by
  have hvault : ("v1" : String) ≠ "" := by decide
  constructor
  · simp only [main]
    rw [if_neg (by decide)]
    simp only [hlist, selectJob_scenarioJobs]
    repeat (first | rfl | split)
  · intro out s2 s3 outputJson outputData hout hbody hdec hids
    have hmain := main_reaches_deleteLoop "v1" (.ok ()) c unmarshal s0 s1 s2 s3 scenarioJobs
      "b" out outputJson outputData hvault rfl hlist selectJob_scenarioJobs hout hbody hdec
    obtain ⟨vault, date, archives⟩ := outputData
    simp only at hids hmain
    cases archives with
    | nil => simp at hids
    | cons a1 rest1 =>
      cases rest1 with
      | nil => simp at hids
      | cons a2 rest2 =>
        cases rest2 with
        | cons a3 rest3 => simp at hids
        | nil =>
          simp only [List.map_cons, List.map_nil, List.cons.injEq, and_true] at hids
          obtain ⟨h1, h2⟩ := hids
          constructor
          · rw [hmain, deleteLoop_calls]
            simp [h1, h2]
          · intro e s4 s5 hd1 hd2
            rw [hmain]
            simp [deleteLoop, h1, h2, hd1, hd2, summaryOfLog, LogLine.isFailed,
              LogLine.archiveId]

/-- C7, witness: the scenario with a client whose first deletion fails. -/
theorem C7_end_to_end_witness :
    (main "v1" (.ok ()) scenarioClient scenarioUnmarshal 0).calls =
        [.ListJobs "v1", .GetJobOutput "v1" "b", .DeleteArchive "v1" "x1",
          .DeleteArchive "v1" "x2"] ∧
      (main "v1" (.ok ()) scenarioClient scenarioUnmarshal 0).exit = none ∧
      (main "v1" (.ok ()) scenarioClient scenarioUnmarshal 0).log =
        [.failed "x1" "unavailable", .deleted "x2"] ∧
      summaryOfLog (main "v1" (.ok ()) scenarioClient scenarioUnmarshal 0).log =
        ⟨2, 1, 1, ["x1"]⟩ :=
  have h := (C7_end_to_end scenarioClient scenarioUnmarshal 0 0 rfl).2
    ⟨fun s1 => (.ok [], s1)⟩ 0 0 [] ⟨"", none, [archiveWithId "x1", archiveWithId "x2"]⟩
    rfl rfl rfl rfl
  ⟨h.1, h.2 "unavailable" 1 2 rfl rfl⟩

/-! ## Decoding: unknown fields and missing `ArchiveId` -/

theorem decodeMembers_filter {α : Type} (set : α → String → Json → Except Error α)
    (known : String → Bool) (hskip : ∀ a key value, known key = false → set a key value = .ok a)
    (members : List (String × Json)) (a : α) :
    decodeMembers set a (members.filter (fun kv => known kv.1)) =
      decodeMembers set a members := by
  induction members generalizing a with
  | nil => rfl
  | cons kv rest ih =>
    obtain ⟨key, value⟩ := kv
    cases hk : known key with
    | false =>
      rw [List.filter_cons_of_neg (by simp [hk])]
      simp only [decodeMembers, hskip a key value hk]
      exact ih a
    | true =>
      rw [List.filter_cons_of_pos (by simp [hk])]
      simp only [decodeMembers]
      cases set a key value with
      | error e => rfl
      | ok a1 => exact ih a1

theorem decodeMembers_map {α : Type} (set : α → String → Json → Except Error α)
    (g : String × Json → String × Json)
    (hg : ∀ a kv, set a (g kv).1 (g kv).2 = set a kv.1 kv.2)
    (members : List (String × Json)) (a : α) :
    decodeMembers set a (members.map g) = decodeMembers set a members := by
  induction members generalizing a with
  | nil => rfl
  | cons kv rest ih =>
    have h := hg a kv
    obtain ⟨key, value⟩ := kv
    cases hgk : g (key, value) with
    | mk key1 value1 =>
      rw [hgk] at h
      simp only at h
      rw [List.map_cons, hgk]
      simp only [decodeMembers, h]
      cases set a key value with
      | error e => rfl
      | ok a1 => exact ih a1

theorem decodeElems_map {β : Type} (f : β → Json → Except Error β) (zero : β)
    (g : Json → Json) (hg : ∀ cur j, f cur (g j) = f cur j) (elems : List Json) :
    ∀ slots, decodeElems f zero slots (elems.map g) = decodeElems f zero slots elems := by
  induction elems with
  | nil => intro slots; rfl
  | cons j rest ih =>
    intro slots
    simp only [List.map_cons, decodeElems, hg, ih]

theorem setArchiveField_unknown (lib : JsonLibrary) (a : Archive) (key : String)
    (value : Json)
    (h : (matchField ArchiveField.name archiveFields lib.foldName key).isSome = false) :
    setArchiveField lib a key value = .ok a := by
  cases hm : matchField ArchiveField.name archiveFields lib.foldName key with
  | none => simp [setArchiveField, hm]
  | some f => simp [hm] at h

theorem setOutputField_unknown (lib : JsonLibrary) (st : Decoding) (key : String)
    (value : Json)
    (h : (matchField OutputField.name outputFields lib.foldName key).isSome = false) :
    setOutputField lib st key value = .ok st := by
  cases hm : matchField OutputField.name outputFields lib.foldName key with
  | none => simp [setOutputField, hm]
  | some f => simp [hm] at h

theorem decodeArchive_stripArchive (lib : JsonLibrary) (cur : Archive) (j : Json) :
    decodeArchive lib cur (stripArchive lib j) = decodeArchive lib cur j := by
  cases j with
  | object members =>
    simp only [stripArchive, decodeArchive]
    exact decodeMembers_filter (setArchiveField lib)
      (fun key => (matchField ArchiveField.name archiveFields lib.foldName key).isSome)
      (fun a key value h => setArchiveField_unknown lib a key value h) members cur
  | _ => rfl

theorem setOutputField_mapArchiveList (lib : JsonLibrary) (g : Json → Json)
    (hg : ∀ cur j, decodeArchive lib cur (g j) = decodeArchive lib cur j) (st : Decoding)
    (kv : String × Json) :
    setOutputField lib st (mapArchiveList lib g kv).1 (mapArchiveList lib g kv).2 =
      setOutputField lib st kv.1 kv.2 := by
  obtain ⟨key, value⟩ := kv
  simp only [mapArchiveList]
  split
  · next _ _ elems hm =>
    simp only [setOutputField, hm, decodeElems_map (decodeArchive lib) zeroArchive g hg,
      List.length_map]
  · rfl

theorem decodeOutputData_stripUnknown (lib : JsonLibrary) (doc : Json) :
    decodeOutputData lib (stripUnknown lib doc) = decodeOutputData lib doc := by
  cases doc with
  | object members =>
    simp only [stripUnknown, decodeOutputData]
    rw [decodeMembers_map (setOutputField lib) (mapArchiveList lib (stripArchive lib))
      (fun st kv => setOutputField_mapArchiveList lib _ (decodeArchive_stripArchive lib) st kv),
      decodeMembers_filter (setOutputField lib)
        (fun key => (matchField OutputField.name outputFields lib.foldName key).isSome)
        (fun st key value h => setOutputField_unknown lib st key value h) members]
  | _ => rfl

theorem setArchiveField_archiveId (lib : JsonLibrary) (a b : Archive) (key : String)
    (value : Json) (hkey : isArchiveIdKey lib key = true)
    (h : setArchiveField lib a key value = .ok b) : blankArchiveId b = blankArchiveId a := by
  have hm : matchField ArchiveField.name archiveFields lib.foldName key =
      some .ArchiveId := by
    simpa [isArchiveIdKey] using hkey
  simp only [setArchiveField, hm] at h
  cases hd : decodeString a.ArchiveId value with
  | error e => simp [hd] at h
  | ok s =>
    simp only [hd, Except.ok.injEq] at h
    subst h
    rfl

theorem setArchiveField_blank (lib : JsonLibrary) (a b : Archive) (key : String)
    (value : Json) (hkey : isArchiveIdKey lib key = false)
    (h : setArchiveField lib a key value = .ok b) :
    setArchiveField lib (blankArchiveId a) key value = .ok (blankArchiveId b) := by
  cases hm : matchField ArchiveField.name archiveFields lib.foldName key with
  | none =>
    simp only [setArchiveField, hm, Except.ok.injEq] at h ⊢
    rw [h]
  | some f =>
    cases f with
    | ArchiveId => simp [isArchiveIdKey, hm] at hkey
    | ArchiveDescription =>
      simp only [setArchiveField, hm] at h ⊢
      simp only [blankArchiveId]
      cases hd : decodeString a.ArchiveDescription value with
      | error e => simp [hd] at h
      | ok s =>
        simp only [hd, Except.ok.injEq] at h
        subst h
        rfl
    | CreationDate =>
      simp only [setArchiveField, hm] at h ⊢
      cases hd : decodeTime lib value with
      | error e => simp [hd] at h
      | ok t =>
        simp only [hd, Except.ok.injEq] at h
        subst h
        rfl
    | Size =>
      simp only [setArchiveField, hm] at h ⊢
      simp only [blankArchiveId]
      cases hd : decodeUint a.Size value with
      | error e => simp [hd] at h
      | ok n =>
        simp only [hd, Except.ok.injEq] at h
        subst h
        rfl
    | SHA256TreeHash =>
      simp only [setArchiveField, hm] at h ⊢
      simp only [blankArchiveId]
      cases hd : decodeString a.SHA256TreeHash value with
      | error e => simp [hd] at h
      | ok s =>
        simp only [hd, Except.ok.injEq] at h
        subst h
        rfl

theorem decodeMembers_dropArchiveId (lib : JsonLibrary) (members : List (String × Json)) :
    ∀ a b : Archive, decodeMembers (setArchiveField lib) a members = .ok b →
      decodeMembers (setArchiveField lib) (blankArchiveId a)
        (members.filter (fun kv => !isArchiveIdKey lib kv.1)) = .ok (blankArchiveId b) := by
  induction members with
  | nil =>
    intro a b h
    simp only [decodeMembers, Except.ok.injEq] at h
    subst h
    rfl
  | cons kv rest ih =>
    intro a b h
    obtain ⟨key, value⟩ := kv
    simp only [decodeMembers] at h
    cases hs : setArchiveField lib a key value with
    | error e => simp [hs] at h
    | ok a1 =>
      rw [hs] at h
      cases hkey : isArchiveIdKey lib key with
      | true =>
        rw [List.filter_cons_of_neg (by simp [hkey])]
        rw [← setArchiveField_archiveId lib a a1 key value hkey hs]
        exact ih a1 b h
      | false =>
        rw [List.filter_cons_of_pos (by simp [hkey])]
        simp only [decodeMembers, setArchiveField_blank lib a a1 key value hkey hs]
        exact ih a1 b h

theorem decodeArchive_dropArchiveId (lib : JsonLibrary) (cur : Archive) (j : Json)
    (a : Archive) (h : decodeArchive lib cur j = .ok a) :
    decodeArchive lib (blankArchiveId cur) (dropArchiveId lib j) = .ok (blankArchiveId a) := by
  cases j with
  | object members =>
    simp only [decodeArchive] at h
    simp only [dropArchiveId, decodeArchive]
    exact decodeMembers_dropArchiveId lib members cur a h
  | null =>
    simp only [decodeArchive, Except.ok.injEq] at h
    subst h
    rfl
  | bool b => simp [decodeArchive] at h
  | number l => simp [decodeArchive] at h
  | string s => simp [decodeArchive] at h
  | array l => simp [decodeArchive] at h

theorem head_map_blankArchiveId (slots : List Archive) :
    (slots.map blankArchiveId).head?.getD zeroArchive =
      blankArchiveId (slots.head?.getD zeroArchive) := by
  cases slots <;> rfl

theorem decodeElems_dropArchiveId (lib : JsonLibrary) (elems : List Json) :
    ∀ slots archives, decodeElems (decodeArchive lib) zeroArchive slots elems = .ok archives →
      decodeElems (decodeArchive lib) zeroArchive (slots.map blankArchiveId)
        (elems.map (dropArchiveId lib)) = .ok (archives.map blankArchiveId) := by
  induction elems with
  | nil =>
    intro slots archives h
    simp only [decodeElems, Except.ok.injEq] at h
    subst h
    rfl
  | cons j rest ih =>
    intro slots archives h
    simp only [decodeElems] at h
    cases hj : decodeArchive lib (slots.head?.getD zeroArchive) j with
    | error e => simp [hj] at h
    | ok a =>
      rw [hj] at h
      cases hr : decodeElems (decodeArchive lib) zeroArchive slots.tail rest with
      | error e => simp [hr] at h
      | ok as =>
        rw [hr] at h
        simp only [Except.ok.injEq] at h
        subst h
        have htail : (slots.map blankArchiveId).tail = slots.tail.map blankArchiveId := by
          cases slots <;> rfl
        simp only [List.map_cons, decodeElems, head_map_blankArchiveId,
          decodeArchive_dropArchiveId lib _ j a hj, htail, ih slots.tail as hr]

theorem setOutputField_dropArchiveId (lib : JsonLibrary) (st st1 : Decoding)
    (kv : String × Json) (h : setOutputField lib st kv.1 kv.2 = .ok st1) :
    setOutputField lib (blankDecoding st) (mapArchiveList lib (dropArchiveId lib) kv).1
      (mapArchiveList lib (dropArchiveId lib) kv).2 = .ok (blankDecoding st1) := by
  obtain ⟨key, value⟩ := kv
  simp only at h
  cases hm : matchField OutputField.name outputFields lib.foldName key with
  | none =>
    simp only [setOutputField, hm, Except.ok.injEq] at h
    subst h
    simp only [mapArchiveList, hm, setOutputField]
  | some f =>
    cases f with
    | VaultARN =>
      simp only [setOutputField, hm] at h
      simp only [mapArchiveList, hm, setOutputField]
      cases hd : decodeString st.outputData.VaultARN value with
      | error e => simp [hd] at h
      | ok s =>
        simp only [hd, Except.ok.injEq] at h
        subst h
        simp only [blankDecoding, blankArchiveIds, hd]
    | InventoryDate =>
      simp only [setOutputField, hm] at h
      simp only [mapArchiveList, hm, setOutputField]
      cases hd : decodeTime lib value with
      | error e => simp [hd] at h
      | ok t =>
        simp only [hd, Except.ok.injEq] at h
        subst h
        simp only [blankDecoding, blankArchiveIds]
    | ArchiveList =>
      simp only [setOutputField, hm] at h
      cases value with
      | array elems =>
        simp only at h
        cases hd : decodeElems (decodeArchive lib) zeroArchive
            (st.outputData.ArchiveList ++ st.spare) elems with
        | error e => simp [hd] at h
        | ok archives =>
          simp only [hd, Except.ok.injEq] at h
          subst h
          have hdrop := decodeElems_dropArchiveId lib elems _ archives hd
          rw [List.map_append] at hdrop
          simp only [mapArchiveList, hm, setOutputField, blankDecoding, blankArchiveIds,
            hdrop, List.length_map]
          split <;> simp [List.map_drop]
      | null =>
        simp only [Except.ok.injEq] at h
        subst h
        simp only [mapArchiveList, hm, setOutputField, blankDecoding, blankArchiveIds,
          List.map_nil]
      | bool b => simp at h
      | number l => simp at h
      | string s => simp at h
      | object l => simp at h

theorem decodeMembers_dropArchiveIds (lib : JsonLibrary) (members : List (String × Json)) :
    ∀ st st1 : Decoding, decodeMembers (setOutputField lib) st members = .ok st1 →
      decodeMembers (setOutputField lib) (blankDecoding st)
        (members.map (mapArchiveList lib (dropArchiveId lib))) = .ok (blankDecoding st1) := by
  induction members with
  | nil =>
    intro st st1 h
    simp only [decodeMembers, Except.ok.injEq] at h
    subst h
    rfl
  | cons kv rest ih =>
    intro st st1 h
    have hstep := setOutputField_dropArchiveId lib st
    obtain ⟨key, value⟩ := kv
    simp only [decodeMembers] at h
    cases hs : setOutputField lib st key value with
    | error e => simp [hs] at h
    | ok st2 =>
      rw [hs] at h
      have h2 := hstep st2 (key, value) hs
      cases hg : mapArchiveList lib (dropArchiveId lib) (key, value) with
      | mk key1 value1 =>
        rw [hg] at h2
        simp only at h2
        rw [List.map_cons, hg]
        simp only [decodeMembers, h2]
        exact ih st2 st1 h

theorem decodeOutputData_dropArchiveIds (lib : JsonLibrary) (doc : Json) (o : OutputData)
    (h : decodeOutputData lib doc = .ok o) :
    decodeOutputData lib (dropArchiveIds lib doc) = .ok (blankArchiveIds o) := by
  cases doc with
  | object members =>
    simp only [decodeOutputData] at h
    cases hd : decodeMembers (setOutputField lib) ⟨zeroOutputData, []⟩ members with
    | error e => simp [hd] at h
    | ok st =>
      simp only [hd, Except.ok.injEq] at h
      subst h
      have h2 := decodeMembers_dropArchiveIds lib members ⟨zeroOutputData, []⟩ st hd
      have hz : blankDecoding ⟨zeroOutputData, []⟩ = ⟨zeroOutputData, []⟩ := rfl
      rw [hz] at h2
      simp only [dropArchiveIds, decodeOutputData, h2, blankDecoding]
  | null =>
    simp only [decodeOutputData, Except.ok.injEq] at h
    subst h
    rfl
  | bool b => simp [decodeOutputData] at h
  | number l => simp [decodeOutputData] at h
  | string s => simp [decodeOutputData] at h
  | array l => simp [decodeOutputData] at h

/-- A second `ArchiveList` member is decoded into the records the first one left: the
element without `ArchiveId` keeps the id `x1`, and the slice is cut to one record. -/
theorem decodeOutputData_docRepeatedArchiveList (lib : JsonLibrary) :
    decodeOutputData lib docRepeatedArchiveList = .ok ⟨"", none, [⟨"x1", "", none, 5, ""⟩]⟩ :=
  rfl

/-! ## The claim on decoding -/

/-- C8, as amended. A missing ArchiveId does not fail decoding: for every document that
decodes, the same document with the ArchiveId fields of its ArchiveList entries left out
decodes too, to the same records with ArchiveId the empty string; and a run of `main`
whose job output is such a document does not end in a decode failure: it reaches the
deletion loop, returns normally and calls DeleteArchive once for every decoded record,
with the empty archive id, whatever the client answers. Unknown extra fields are ignored:
a document decodes exactly as it does without the fields that match no field of the
struct, at top level and inside the ArchiveList entries, so two documents that differ
only by such fields decode to the same result. -/
theorem C8_missing_archiveId_not_rejected {σ : Type} (lib : JsonLibrary) (doc : Json)
    (c : Client σ) (vaultFlg : String) :
    (∀ o, decodeOutputData lib doc = .ok o →
        decodeOutputData lib (dropArchiveIds lib doc) = .ok (blankArchiveIds o)) ∧
      (∀ (o : OutputData) (loadConfig : Except Error Unit) (s0 s1 s2 s3 : σ)
        (jobList : List GlacierJobDescription) (latestJob : String)
        (out : GetJobOutputOutput σ) (outputJson : Bytes),
        decodeOutputData lib doc = .ok o →
        vaultFlg ≠ "" → loadConfig = .ok () →
        c.ListJobs s0 vaultFlg = (.ok jobList, s1) → selectJob jobList = .ok latestJob →
        c.GetJobOutput s1 vaultFlg latestJob = (.ok out, s2) →
        out.Body s2 = (.ok outputJson, s3) →
        lib.parse outputJson = some (dropArchiveIds lib doc) →
        (main vaultFlg loadConfig c (Unmarshal lib) s0).exit = none ∧
          (main vaultFlg loadConfig c (Unmarshal lib) s0).calls =
            [.ListJobs vaultFlg, .GetJobOutput vaultFlg latestJob] ++
              o.ArchiveList.map (fun _ => Call.DeleteArchive vaultFlg "")) ∧
      decodeOutputData lib (stripUnknown lib doc) = decodeOutputData lib doc ∧
      (∀ doc2, stripUnknown lib doc2 = stripUnknown lib doc →
        decodeOutputData lib doc2 = decodeOutputData lib doc) ∧
      (∀ outputJson, lib.parse outputJson = some doc →
        Unmarshal lib outputJson = decodeOutputData lib doc) := by
  refine ⟨decodeOutputData_dropArchiveIds lib doc, ?_, decodeOutputData_stripUnknown lib doc,
    ?_, ?_⟩
  · intro o loadConfig s0 s1 s2 s3 jobList latestJob out outputJson hdoc hvault hcfg hlist
      hsel hout hbody hparse
    have hdec : Unmarshal lib outputJson = .ok (blankArchiveIds o) := by
      simp only [Unmarshal, hparse]
      exact decodeOutputData_dropArchiveIds lib doc o hdoc
    rw [main_reaches_deleteLoop vaultFlg loadConfig c (Unmarshal lib) s0 s1 s2 s3 jobList
      latestJob out outputJson (blankArchiveIds o) hvault hcfg hlist hsel hout hbody hdec,
      deleteLoop_calls]
    refine ⟨rfl, ?_⟩
    simp only [blankArchiveIds, List.map_map]
    rfl
  · intro doc2 h
    rw [← decodeOutputData_stripUnknown lib doc2, h, decodeOutputData_stripUnknown]
  · intro outputJson h
    simp [Unmarshal, h]

/-- C8, witness: a well-formed document of two archives, the same with unknown fields
added, the same with its ArchiveId fields left out, and a run on the latter. -/
theorem C8_missing_archiveId_not_rejected_witness :
    decodeOutputData (exampleLibrary .null) docWellFormed =
        .ok ⟨"arn:aws:glacier:us-east-1:1:vaults/v1", none,
          [⟨"x1", "", none, 10, ""⟩, ⟨"x2", "", none, 20, ""⟩]⟩ ∧
      decodeOutputData (exampleLibrary .null) docExtraFields =
        decodeOutputData (exampleLibrary .null) docWellFormed ∧
      decodeOutputData (exampleLibrary .null)
          (dropArchiveIds (exampleLibrary .null) docWellFormed) =
        .ok ⟨"arn:aws:glacier:us-east-1:1:vaults/v1", none,
          [⟨"", "", none, 10, ""⟩, ⟨"", "", none, 20, ""⟩]⟩ ∧
      (main "v1" (.ok ()) refusingClient
          (Unmarshal (exampleLibrary
            (dropArchiveIds (exampleLibrary .null) docWellFormed))) 0).calls =
        [.ListJobs "v1", .GetJobOutput "v1" "b", .DeleteArchive "v1" "",
          .DeleteArchive "v1" ""] :=
  ⟨rfl,
    (C8_missing_archiveId_not_rejected (exampleLibrary .null) docWellFormed
      refusingClient "v1").2.2.2.1 docExtraFields rfl,
    (C8_missing_archiveId_not_rejected (exampleLibrary .null) docWellFormed
      refusingClient "v1").1 _ rfl,
    ((C8_missing_archiveId_not_rejected
      (exampleLibrary (dropArchiveIds (exampleLibrary .null) docWellFormed)) docWellFormed
      refusingClient "v1").2.1 _ (.ok ()) 0 0 0 0 scenarioJobs "b"
      ⟨fun s1 => (.ok [], s1)⟩ [] rfl (by decide) rfl rfl selectJob_scenarioJobs rfl rfl
      rfl).2⟩

/-- C8, counterexample. The document `docMissingArchiveId`, whose first ArchiveList entry
has no ArchiveId, is not rejected: with any library it decodes to two records, the first
with the empty ArchiveId, and a run on it returns normally after calling DeleteArchive for
each of the two, the first call with the empty id. -/
theorem C8_counterexample :
    (∀ lib : JsonLibrary, decodeOutputData lib docMissingArchiveId =
        .ok ⟨"arn:aws:glacier:us-east-1:1:vaults/v1", none,
          [⟨"", "photos", none, 10, ""⟩, ⟨"x2", "", none, 20, ""⟩]⟩) ∧
      (∀ (lib : JsonLibrary) (outputJson : Bytes),
        lib.parse outputJson = some docMissingArchiveId →
        Unmarshal lib outputJson =
          .ok ⟨"arn:aws:glacier:us-east-1:1:vaults/v1", none,
            [⟨"", "photos", none, 10, ""⟩, ⟨"x2", "", none, 20, ""⟩]⟩) ∧
      (main "v1" (.ok ()) servingClient
          (Unmarshal (exampleLibrary docMissingArchiveId)) 0).exit = none ∧
      (main "v1" (.ok ()) servingClient
          (Unmarshal (exampleLibrary docMissingArchiveId)) 0).calls =
        [.ListJobs "v1", .GetJobOutput "v1" "b", .DeleteArchive "v1" "",
          .DeleteArchive "v1" "x2"] := by
  have hdec : ∀ lib : JsonLibrary, decodeOutputData lib docMissingArchiveId =
      .ok ⟨"arn:aws:glacier:us-east-1:1:vaults/v1", none,
        [⟨"", "photos", none, 10, ""⟩, ⟨"x2", "", none, 20, ""⟩]⟩ := fun _ => rfl
  have hmain := main_reaches_deleteLoop "v1" (.ok ()) servingClient
    (Unmarshal (exampleLibrary docMissingArchiveId)) 0 0 0 0 scenarioJobs "b"
    ⟨fun s1 => (.ok [], s1)⟩ [] _ (by decide) rfl rfl selectJob_scenarioJobs rfl rfl
    (hdec (exampleLibrary docMissingArchiveId))
  refine ⟨hdec, ?_, ?_, ?_⟩
  · intro lib outputJson h
    simp only [Unmarshal, h]
    exact hdec lib
  · rw [hmain]
  · rw [hmain]
    rfl

end EmptyGlacierVault
